import Mathlib

/-! # MYBUFF ring buffer and MYDEV driver: a shallow embedding

Source files embedded here: `src/mydev/mybuff.c` (the ring buffer) and, of
`src/mydev/mydev.c` (the character device built on it), the functions
`mydev_read`, `mydev_write`, `mydev_poll`, `mydev_ioctl`, `mydev_init` and
`mydev_exit`.

Conventions of the embedding.

* C `int` values are `Int`.  On every state reachable from `mybuff_create`
  all indices are in `[0, size)` and `size` fits an `int`, so no `int`
  operation of `mybuff.c` overflows; the well-formedness lemmas below make
  the index bounds explicit.
* C `%` truncates towards zero: it is `Int.tmod`.
* A `struct mybuff *` is an `Option mybuff` (`none` is `NULL`); a function
  that mutates the pointee returns the new pointee.
* A `char` is a `UInt8`; the storage `char *buff` is a `List UInt8`.
-/

namespace MyBuff

/-- One `char` of storage. -/
abbrev Byte := UInt8

/-- The anonymous `enum { MYBUFF_EMPTY, MYBUFF_DATA, MYBUFF_FULL }`. -/
inductive Status where
  | MYBUFF_EMPTY
  | MYBUFF_DATA
  | MYBUFF_FULL
  deriving DecidableEq, Repr

open Status

/-- The C structure `struct mybuff`, fields in declaration order. -/
structure mybuff where
  buff : List Byte
  write_idx : Int
  read_idx : Int
  size : Int
  status : Status
  deriving DecidableEq, Repr

/-- Storage load `p[i]` for an `int` index. -/
def load (p : List Byte) (i : Int) : Byte :=
  p.getD i.toNat 0

/-- Storage store `p[i] = x` for an `int` index. -/
def store (p : List Byte) (i : Int) (x : Byte) : List Byte :=
  p.set i.toNat x

/-- The function `mybuff_create`.  The arguments `alloc_struct` and `alloc_buff` are the
outcomes of the two `alloc` calls: whether the structure was obtained, and
(when the storage was obtained) the arbitrary initial content of its bytes.
The argument `old` is the value of `*mybuff` at entry.  The result is the
return value and the value of `*mybuff` at exit. -/
def mybuff_create (old : Option mybuff) (size : Int) (alloc_struct : Bool)
    (alloc_buff : Option (Nat → Byte)) : Int × Option mybuff :=
  if size ≤ 0 then
    (-1, old)
  else if alloc_struct then
    match alloc_buff with
    | some garbage =>
      (0, some { buff := (List.range size.toNat).map garbage
                 write_idx := 0
                 read_idx := 0
                 size := size
                 status := MYBUFF_EMPTY })
    | none => (-1, none)
  else
    (-1, none)

/-- The body of the `while` loop of `mybuff_read`, run for at most `count`
iterations (`count` is the loop counter, decremented once per iteration);
`out` collects the bytes stored to `buff[0]`, `buff[1]`, ... -/
def mybuff_read_loop : Nat → mybuff → List Byte → mybuff × List Byte
  | 0, b, out => (b, out)
  | count + 1, b, out =>
    if b.status ≠ MYBUFF_EMPTY then
      let x := load b.buff b.read_idx
      let r := (b.read_idx + 1).tmod b.size
      mybuff_read_loop count
        { b with read_idx := r
                 status := if r = b.write_idx then MYBUFF_EMPTY else MYBUFF_DATA }
        (out ++ [x])
    else
      (b, out)

/-- Result of `mybuff_read`: the return value `read`, the bytes stored to the
caller's `buff[0 .. read)`, and the pointee afterwards. -/
structure ReadResult where
  ret : Int
  out : List Byte
  mybuff : Option mybuff
  deriving DecidableEq, Repr

/-- The function `mybuff_read`. -/
def mybuff_read (b : Option mybuff) (count : Int) : ReadResult :=
  match b with
  | some b =>
    let r := mybuff_read_loop count.toNat b []
    { ret := r.2.length, out := r.2, mybuff := some r.1 }
  | none => { ret := 0, out := [], mybuff := none }

/-- The body of the `while` loop of `mybuff_write`, run for at most `count`
iterations; `written` is the local of that name, `buff` the caller's bytes. -/
def mybuff_write_loop (buff : List Byte) : Nat → mybuff → Nat → mybuff × Nat
  | 0, b, written => (b, written)
  | count + 1, b, written =>
    if b.status ≠ MYBUFF_FULL then
      let w := (b.write_idx + 1).tmod b.size
      mybuff_write_loop buff count
        { b with buff := store b.buff b.write_idx (buff.getD written 0)
                 write_idx := w
                 status := if w = b.read_idx then MYBUFF_FULL else MYBUFF_DATA }
        (written + 1)
    else
      (b, written)

/-- Result of `mybuff_write`: the return value `written` and the pointee
afterwards. -/
structure WriteResult where
  ret : Int
  mybuff : Option mybuff
  deriving DecidableEq, Repr

/-- The function `mybuff_write`. -/
def mybuff_write (b : Option mybuff) (buff : List Byte) (count : Int) : WriteResult :=
  match b with
  | some b =>
    let r := mybuff_write_loop buff count.toNat b 0
    { ret := r.2, mybuff := some r.1 }
  | none => { ret := 0, mybuff := none }

/-- The function `mybuff_clear`: the pointee afterwards (the return value is always 0). -/
def mybuff_clear (b : Option mybuff) : Option mybuff :=
  match b with
  | some b => some { b with read_idx := 0, write_idx := 0, status := MYBUFF_EMPTY }
  | none => none

/-- The function `mybuff_size`. -/
def mybuff_size (b : Option mybuff) : Int :=
  match b with
  | some b => b.size
  | none => 0

/-- The function `mybuff_free`. -/
def mybuff_free (b : Option mybuff) : Int :=
  match b with
  | some b =>
    match b.status with
    | MYBUFF_EMPTY => b.size
    | MYBUFF_FULL => 0
    | MYBUFF_DATA =>
      if b.read_idx ≥ b.write_idx then b.read_idx - b.write_idx
      else b.size - b.write_idx + b.read_idx
  | none => 0

/-- The function `mybuff_ready`. -/
def mybuff_ready (b : Option mybuff) : Int :=
  match b with
  | some b => mybuff_size (some b) - mybuff_free (some b)
  | none => 0

/-! ## Specification-side notions for the ring buffer -/

/-- Well-formedness of a ring buffer: positive capacity, storage of exactly
`size` bytes, both indices inside `[0, size)`, and `status` is
`MYBUFF_DATA` exactly when the two indices differ. -/
def WF (b : mybuff) : Prop :=
  0 < b.size ∧ b.buff.length = b.size.toNat ∧
  0 ≤ b.read_idx ∧ b.read_idx < b.size ∧
  0 ≤ b.write_idx ∧ b.write_idx < b.size ∧
  (b.status = MYBUFF_DATA ↔ b.read_idx ≠ b.write_idx)

instance (b : mybuff) : Decidable (WF b) := by
  unfold WF; infer_instance

/-- States reachable from a successful `mybuff_create` by calls of
`mybuff_read`, `mybuff_write` and `mybuff_clear`. -/
inductive Reachable : mybuff → Prop where
  | create (old : Option mybuff) (size : Int) (alloc_struct : Bool)
      (alloc_buff : Option (Nat → Byte)) (b : mybuff) :
      mybuff_create old size alloc_struct alloc_buff = (0, some b) → Reachable b
  | read (b : mybuff) (count : Int) (b1 : mybuff) :
      Reachable b → (mybuff_read (some b) count).mybuff = some b1 → Reachable b1
  | write (b : mybuff) (buff : List Byte) (count : Int) (b1 : mybuff) :
      Reachable b → (mybuff_write (some b) buff count).mybuff = some b1 → Reachable b1
  | clear (b : mybuff) (b1 : mybuff) :
      Reachable b → mybuff_clear (some b) = some b1 → Reachable b1

/-- The stored bytes in ring order: the `mybuff_ready` bytes found from
`read_idx` onwards, wrapping at `size`. -/
def contents (b : mybuff) : List Byte :=
  (List.range (mybuff_ready (some b)).toNat).map
    (fun i => b.buff.getD ((b.read_idx.toNat + i) % b.size.toNat) 0)

/-- A freshly created buffer of capacity `size` whose storage initially holds
`garbage`: the buffer `mybuff_create` leaves in `*mybuff` when both
allocations succeed. -/
def fresh (size : Int) (garbage : Nat → Byte) : Option mybuff :=
  (mybuff_create none size true (some garbage)).2

/-- One call on the buffer: a write of all of `data`, or a read of up to
`count` bytes. -/
inductive Op where
  | write (data : List Byte)
  | read (count : Int)
  deriving DecidableEq, Repr

/-- Outcome of a sequence of calls: the buffer, the concatenation of the
bytes returned by the reads, and the concatenation of the bytes accepted by
the writes (for each write the first `written` bytes of its input). -/
structure Run where
  mybuff : Option mybuff
  reads : List Byte
  accepted : List Byte
  deriving DecidableEq, Repr

/-- Runs the calls of `ops` in order, starting from the outcome `r`. -/
def run (r : Run) : List Op → Run
  | [] => r
  | Op.write data :: ops =>
    let w := mybuff_write r.mybuff data data.length
    run { mybuff := w.mybuff, reads := r.reads
          accepted := r.accepted ++ data.take w.ret.toNat } ops
  | Op.read count :: ops =>
    let rd := mybuff_read r.mybuff count
    run { mybuff := rd.mybuff, reads := r.reads ++ rd.out
          accepted := r.accepted } ops

/-- For each chunk in turn `mybuff_write(chunk)` then
`mybuff_read(len(chunk))`; yields, per chunk, the write's return value, the
read's return value and the bytes the read returned. -/
def roundtrip (b : Option mybuff) : List (List Byte) → List (Int × Int × List Byte)
  | [] => []
  | chunk :: chunks =>
    let w := mybuff_write b chunk chunk.length
    let rd := mybuff_read w.mybuff chunk.length
    (w.ret, rd.ret, rd.out) :: roundtrip rd.mybuff chunks

/-- The buffer after one iteration of the loop body of `mybuff_read`. -/
def read_step (b : mybuff) : mybuff :=
  { b with read_idx := (b.read_idx + 1).tmod b.size
           status := if (b.read_idx + 1).tmod b.size = b.write_idx then MYBUFF_EMPTY
                     else MYBUFF_DATA }

/-- The buffer after one iteration of the loop body of `mybuff_write` storing `x`. -/
def write_step (b : mybuff) (x : Byte) : mybuff :=
  { b with buff := store b.buff b.write_idx x
           write_idx := (b.write_idx + 1).tmod b.size
           status := if (b.write_idx + 1).tmod b.size = b.read_idx then MYBUFF_FULL
                     else MYBUFF_DATA }

/-- The value of `free()` as section 4.1 of the specification words it. -/
def free_spec (b : mybuff) : Int :=
  if b.status = MYBUFF_EMPTY then b.size
  else if b.status = MYBUFF_FULL then 0
  else if b.read_idx > b.write_idx then b.read_idx - b.write_idx
  else b.size - b.write_idx + b.read_idx

end MyBuff

/-! ## The read and write paths of the character device (`mydev.c`)

A call runs against an environment that fixes what the kernel primitives
return: whether each `mutex_lock_interruptible` is interrupted, how each
blocking wait ends and what the other threads did to the ring buffer while
the lock was released, whether `kmalloc` and the user copy succeed.  The call
yields its return value, the ring buffer at return, and the sequence of
primitive operations it performed. -/

namespace MyDev
open MyBuff

/-- Value of `EAGAIN` in `<linux/errno.h>` (the header is not in the repository). -/
def EAGAIN : Int := 11

/-- Value of `ENOMEM` in `<linux/errno.h>`. -/
def ENOMEM : Int := 12

/-- Value of `EFAULT` in `<linux/errno.h>`. -/
def EFAULT : Int := 14

/-- Value of `ERESTARTSYS` in `<linux/errno.h>`. -/
def ERESTARTSYS : Int := 512

/-- Value of `O_NONBLOCK` in `<linux/fcntl.h>` (octal 04000). -/
def O_NONBLOCK : Nat := 2048

/-- The two wait queues of `struct mydev_info`. -/
inductive Queue where
  | in_queue
  | out_queue
  deriving DecidableEq, Repr

/-- The band argument of `kill_fasync`. -/
inductive Band where
  | POLL_IN
  | POLL_OUT
  deriving DecidableEq, Repr

/-- The primitive operations a call performs, in program order. -/
inductive Event where
  | mutex_lock (acquired : Bool)
  | mutex_unlock
  | wait_event (q : Queue)
  | kmalloc (ok : Bool)
  | kfree
  | mybuff_read
  | mybuff_write
  | copy_to_user (ok : Bool)
  | copy_from_user (ok : Bool)
  | wake_up (q : Queue)
  | kill_fasync (band : Band)
  | poll_wait (q : Queue)
  | put_user (ok : Bool)
  deriving DecidableEq, Repr

/-- The fields of `struct mydev_info` the read and write paths use: the ring
buffer handle and whether `async_queue` is non-null.  The mutex and the wait
queues appear through the events on them. -/
structure mydev_info where
  mybuff : Option MyBuff.mybuff
  async_queue : Bool
  deriving DecidableEq, Repr

/-- One blocking wait of a call: whether `wait_event_interruptible` was
interrupted, whether the `mutex_lock_interruptible` that follows it was, and
the ring buffer as the other threads left it when the wait ended. -/
structure Round where
  wait_intr : Bool
  lock_intr : Bool
  mybuff : Option MyBuff.mybuff
  deriving DecidableEq, Repr

/-- The environment of one call. -/
structure Env where
  lock_intr : Bool
  rounds : List Round
  kmalloc_ok : Bool
  copy_ok : Bool
  deriving DecidableEq, Repr

/-- Outcome of a call: `retval` is `none` when the call is still suspended in
its wait (the environment never wakes it); `user` holds the bytes a successful
call delivered to the caller's buffer (what a faulting `copy_to_user` leaves
there is not modelled: `user` is empty on every error return). -/
structure Result where
  retval : Option Int
  mybuff : Option MyBuff.mybuff
  user : List Byte
  trace : List Event
  deriving DecidableEq, Repr

/-- How the wait loop of a call ends: by leaving the function through `err1`
(or staying suspended), or by falling through with the lock held. -/
inductive Wait where
  | exit (retval : Option Int) (mybuff : Option MyBuff.mybuff) (trace : List Event)
  | proceed (mybuff : Option MyBuff.mybuff) (trace : List Event)
  deriving DecidableEq, Repr

/-- Conversion of a `size_t` argument to the `int` parameter of
`mybuff_read` / `mybuff_write` (two's complement, 32 bits). -/
def int_of_size_t (count : Nat) : Int :=
  if count % 2 ^ 32 < 2 ^ 31 then ((count % 2 ^ 32 : Nat) : Int)
  else ((count % 2 ^ 32 : Nat) : Int) - 2 ^ 32

/-- Whether `copy_to_user` / `copy_from_user` of `n` bytes fails: a copy of no
byte never does. -/
def copy_fails (copy_ok : Bool) (n : Int) : Bool :=
  !copy_ok && n != 0

/-- The loop `while (mybuff_ready(mydev->mybuff) == 0)` of `mydev_read`,
entered with the lock held. -/
def mydev_read_wait (nonblock : Bool) (rounds : List Round)
    (b : Option MyBuff.mybuff) (tr : List Event) : Wait :=
  if mybuff_ready b = 0 then
    if nonblock then
      Wait.exit (some (-EAGAIN)) b (tr ++ [Event.mutex_unlock])
    else
      match rounds with
      | [] => Wait.exit none b (tr ++ [Event.mutex_unlock, Event.wait_event Queue.in_queue])
      | r :: rs =>
        if r.wait_intr then
          Wait.exit (some (-ERESTARTSYS)) r.mybuff
            (tr ++ [Event.mutex_unlock, Event.wait_event Queue.in_queue])
        else if r.lock_intr then
          Wait.exit (some (-ERESTARTSYS)) r.mybuff
            (tr ++ [Event.mutex_unlock, Event.wait_event Queue.in_queue,
                    Event.mutex_lock false])
        else
          mydev_read_wait nonblock rs r.mybuff
            (tr ++ [Event.mutex_unlock, Event.wait_event Queue.in_queue,
                    Event.mutex_lock true])
  else
    Wait.proceed b tr

/-- The function `mydev_read` for a request of `count` bytes on a file with flags
`f_flags`. -/
def mydev_read (mydev : mydev_info) (f_flags : Nat) (count : Nat) (env : Env) : Result :=
  if env.lock_intr then
    { retval := some (-ERESTARTSYS), mybuff := mydev.mybuff, user := []
      trace := [Event.mutex_lock false] }
  else
    match mydev_read_wait (f_flags &&& O_NONBLOCK != 0) env.rounds mydev.mybuff
        [Event.mutex_lock true] with
    | Wait.exit retval b tr => { retval := retval, mybuff := b, user := [], trace := tr }
    | Wait.proceed b tr =>
      if !env.kmalloc_ok then
        { retval := some (-ENOMEM), mybuff := b, user := []
          trace := tr ++ [Event.kmalloc false, Event.mutex_unlock] }
      else
        let rd := mybuff_read b (int_of_size_t count)
        if copy_fails env.copy_ok rd.ret then
          { retval := some (-EFAULT), mybuff := rd.mybuff, user := []
            trace := tr ++ [Event.kmalloc true, Event.mybuff_read,
                            Event.copy_to_user false, Event.kfree, Event.mutex_unlock] }
        else
          { retval := some rd.ret, mybuff := rd.mybuff, user := rd.out
            trace := tr ++ [Event.kmalloc true, Event.mybuff_read,
                            Event.copy_to_user true, Event.kfree, Event.mutex_unlock,
                            Event.wake_up Queue.out_queue]
                        ++ (if mydev.async_queue then [Event.kill_fasync Band.POLL_OUT]
                            else []) }

/-- The loop `while (mybuff_free(mydev->mybuff) == 0)` of `mydev_write`,
entered with the lock held. -/
def mydev_write_wait (nonblock : Bool) (rounds : List Round)
    (b : Option MyBuff.mybuff) (tr : List Event) : Wait :=
  if mybuff_free b = 0 then
    if nonblock then
      Wait.exit (some (-EAGAIN)) b (tr ++ [Event.mutex_unlock])
    else
      match rounds with
      | [] => Wait.exit none b (tr ++ [Event.mutex_unlock, Event.wait_event Queue.out_queue])
      | r :: rs =>
        if r.wait_intr then
          Wait.exit (some (-ERESTARTSYS)) r.mybuff
            (tr ++ [Event.mutex_unlock, Event.wait_event Queue.out_queue])
        else if r.lock_intr then
          Wait.exit (some (-ERESTARTSYS)) r.mybuff
            (tr ++ [Event.mutex_unlock, Event.wait_event Queue.out_queue,
                    Event.mutex_lock false])
        else
          mydev_write_wait nonblock rs r.mybuff
            (tr ++ [Event.mutex_unlock, Event.wait_event Queue.out_queue,
                    Event.mutex_lock true])
  else
    Wait.proceed b tr

/-- The function `mydev_write` for a request of `count` bytes found at the caller's
`buf`, on a file with flags `f_flags`. -/
def mydev_write (mydev : mydev_info) (f_flags : Nat) (buf : List Byte) (count : Nat)
    (env : Env) : Result :=
  if env.lock_intr then
    { retval := some (-ERESTARTSYS), mybuff := mydev.mybuff, user := []
      trace := [Event.mutex_lock false] }
  else
    match mydev_write_wait (f_flags &&& O_NONBLOCK != 0) env.rounds mydev.mybuff
        [Event.mutex_lock true] with
    | Wait.exit retval b tr => { retval := retval, mybuff := b, user := [], trace := tr }
    | Wait.proceed b tr =>
      if !env.kmalloc_ok then
        { retval := some (-ENOMEM), mybuff := b, user := []
          trace := tr ++ [Event.kmalloc false, Event.mutex_unlock] }
      else if copy_fails env.copy_ok count then
        { retval := some (-EFAULT), mybuff := b, user := []
          trace := tr ++ [Event.kmalloc true, Event.copy_from_user false, Event.kfree,
                          Event.mutex_unlock] }
      else
        let w := mybuff_write b (buf.take count) (int_of_size_t count)
        { retval := some w.ret, mybuff := w.mybuff, user := []
          trace := tr ++ [Event.kmalloc true, Event.copy_from_user true,
                          Event.mybuff_write, Event.kfree, Event.mutex_unlock,
                          Event.wake_up Queue.in_queue]
                      ++ (if mydev.async_queue then [Event.kill_fasync Band.POLL_IN]
                          else []) }

/-- The ring buffer as the environment alone leaves it after the call went
through `k` waits: the buffer at entry when `k = 0`, else the buffer of the
`k`-th round. -/
def env_buff (b : Option MyBuff.mybuff) : List Round → Nat → Option MyBuff.mybuff
  | _, 0 => b
  | [], _ + 1 => b
  | r :: rs, k + 1 => env_buff r.mybuff rs k

/-- Number of blocking waits in a trace. -/
def waits (tr : List Event) : Nat :=
  (tr.filter (fun e => e = Event.wait_event Queue.in_queue ∨
                       e = Event.wait_event Queue.out_queue)).length

/-! ### Poll and ioctl -/

/-- Value of `POLLIN` in `<asm-generic/poll.h>` (the header is not in the repository). -/
def POLLIN : Nat := 0x0001

/-- Value of `POLLOUT` in `<asm-generic/poll.h>`. -/
def POLLOUT : Nat := 0x0004

/-- Value of `POLLERR` in `<asm-generic/poll.h>`. -/
def POLLERR : Nat := 0x0008

/-- Value of `POLLRDNORM` in `<asm-generic/poll.h>`. -/
def POLLRDNORM : Nat := 0x0040

/-- Value of `POLLWRNORM` in `<asm-generic/poll.h>`. -/
def POLLWRNORM : Nat := 0x0100

/-- Outcome of `mydev_poll`: the returned mask, the ring buffer at return and
the primitive operations performed. -/
structure PollResult where
  retval : Nat
  mybuff : Option MyBuff.mybuff
  trace : List Event
  deriving DecidableEq, Repr

/-- The function `mydev_poll`; `lock_intr` tells whether `mutex_lock_interruptible`
was interrupted. -/
def mydev_poll (mydev : mydev_info) (lock_intr : Bool) : PollResult :=
  if lock_intr then
    { retval := POLLERR, mybuff := mydev.mybuff, trace := [Event.mutex_lock false] }
  else
    let retval := 0
    let retval := if mybuff_ready mydev.mybuff ≠ 0 then retval ||| (POLLIN ||| POLLRDNORM)
                  else retval
    let retval := if mybuff_free mydev.mybuff ≠ 0 then retval ||| (POLLOUT ||| POLLWRNORM)
                  else retval
    { retval := retval, mybuff := mydev.mybuff
      trace := [Event.mutex_lock true, Event.poll_wait Queue.in_queue,
                Event.poll_wait Queue.out_queue, Event.mutex_unlock] }

/-- Value of `ENOTTY` in `<linux/errno.h>`. -/
def ENOTTY : Int := 25

/-- The macro `_IOR(type, nr, size)` of `<asm-generic/ioctl.h>` (read direction
in bits 30-31, argument size in bits 16-29, type in bits 8-15, number in bits
0-7), applied to a type of `size` bytes. -/
def IOR (type nr size : Nat) : Nat :=
  2 * 2 ^ 30 + size * 2 ^ 16 + type * 2 ^ 8 + nr

/-- The macro `MYDEV_IOCTL_MAGIC`, the character `m`. -/
def MYDEV_IOCTL_MAGIC : Nat := 109

/-- The macro `MYDEV_IOCTL_SIZE_GET` (`sizeof(int)` is 4). -/
def MYDEV_IOCTL_SIZE_GET : Nat := IOR MYDEV_IOCTL_MAGIC 0 4

/-- The macro `MYDEV_IOCTL_FREE_GET`. -/
def MYDEV_IOCTL_FREE_GET : Nat := IOR MYDEV_IOCTL_MAGIC 1 4

/-- The macro `MYDEV_IOCTL_READY_GET`. -/
def MYDEV_IOCTL_READY_GET : Nat := IOR MYDEV_IOCTL_MAGIC 2 4

/-- Outcome of `mydev_ioctl`: the return value, the `int` stored through the
user pointer `arg` (if any), the ring buffer at return and the primitive
operations performed. -/
structure IoctlResult where
  retval : Int
  arg : Option Int
  mybuff : Option MyBuff.mybuff
  trace : List Event
  deriving DecidableEq, Repr

/-- The statement `if (put_user(v, arg)) { retval = -EFAULT; goto err2; } break;`
followed by the common exit of `mydev_ioctl`. -/
def ioctl_put (mydev : mydev_info) (put_user_ok : Bool) (v : Int) : IoctlResult :=
  if !put_user_ok then
    { retval := -EFAULT, arg := none, mybuff := mydev.mybuff
      trace := [Event.mutex_lock true, Event.put_user false, Event.mutex_unlock] }
  else
    { retval := 0, arg := some v, mybuff := mydev.mybuff
      trace := [Event.mutex_lock true, Event.put_user true, Event.mutex_unlock] }

/-- The function `mydev_ioctl` for the command `cmd`; `lock_intr` and `put_user_ok`
are the outcomes of `mutex_lock_interruptible` and `put_user`. -/
def mydev_ioctl (mydev : mydev_info) (cmd : Nat) (lock_intr put_user_ok : Bool) :
    IoctlResult :=
  if lock_intr then
    { retval := -ERESTARTSYS, arg := none, mybuff := mydev.mybuff
      trace := [Event.mutex_lock false] }
  else if cmd = MYDEV_IOCTL_SIZE_GET then
    ioctl_put mydev put_user_ok (mybuff_size mydev.mybuff)
  else if cmd = MYDEV_IOCTL_FREE_GET then
    ioctl_put mydev put_user_ok (mybuff_free mydev.mybuff)
  else if cmd = MYDEV_IOCTL_READY_GET then
    ioctl_put mydev put_user_ok (mybuff_ready mydev.mybuff)
  else
    { retval := -ENOTTY, arg := none, mybuff := mydev.mybuff
      trace := [Event.mutex_lock true, Event.mutex_unlock] }

/-! ### Properties of traces -/

/-- Replays a trace from the lock state `held` and checks that every call of
`mybuff_read` / `mybuff_write` happens with the mutex held and every blocking
wait with the mutex not held; yields the lock state at the end, or `none` at
the first violation. -/
def locked_access : Bool → List Event → Option Bool
  | held, [] => some held
  | _, Event.mutex_lock true :: es => locked_access true es
  | _, Event.mutex_unlock :: es => locked_access false es
  | held, Event.mybuff_read :: es => if held then locked_access held es else none
  | held, Event.mybuff_write :: es => if held then locked_access held es else none
  | held, Event.wait_event _ :: es => if held then none else locked_access held es
  | held, _ :: es => locked_access held es

/-- Replays a trace from the lock state `held` and checks that the mutex is
never unlocked while not held and never locked while held; yields the lock
state at the end, or `none` at the first violation. -/
def lock_balance : Bool → List Event → Option Bool
  | held, [] => some held
  | held, Event.mutex_lock acquired :: es =>
    if held then none else lock_balance acquired es
  | held, Event.mutex_unlock :: es =>
    if held then lock_balance false es else none
  | held, _ :: es => lock_balance held es

/-- The trace at the end of a wait loop. -/
def Wait.trace : Wait → List Event
  | Wait.exit _ _ tr => tr
  | Wait.proceed _ tr => tr

/-- Whether a wait loop ended by falling through, with the lock held. -/
def Wait.proceeds : Wait → Bool
  | Wait.exit _ _ _ => false
  | Wait.proceed _ _ => true

/-- The events a wait loop performs. -/
def wait_loop_event (e : Event) : Prop :=
  e = Event.mutex_unlock ∨ e = Event.mutex_lock true ∨ e = Event.mutex_lock false ∨
  e = Event.wait_event Queue.in_queue ∨ e = Event.wait_event Queue.out_queue

/-- Whether a trace signals the readable waiter set: `in_queue`, or the
subscribers with `POLL_IN`. -/
def signals_readable (tr : List Event) : Prop :=
  Event.wake_up Queue.in_queue ∈ tr ∨ Event.kill_fasync Band.POLL_IN ∈ tr

/-- Whether a trace signals the writable waiter set: `out_queue`, or the
subscribers with `POLL_OUT`. -/
def signals_writable (tr : List Event) : Prop :=
  Event.wake_up Queue.out_queue ∈ tr ∨ Event.kill_fasync Band.POLL_OUT ∈ tr

instance (tr : List Event) : Decidable (signals_readable tr) := by
  unfold signals_readable; infer_instance

instance (tr : List Event) : Decidable (signals_writable tr) := by
  unfold signals_writable; infer_instance

/-- Well-formedness of the buffer behind a handle (a null handle has none). -/
def WFo (b : Option MyBuff.mybuff) : Prop :=
  match b with
  | some x => WF x
  | none => True

instance (b : Option MyBuff.mybuff) : Decidable (WFo b) :=
  match b with
  | some x => inferInstanceAs (Decidable (WF x))
  | none => isTrue trivial

/-- The stored bytes behind a handle (none behind a null handle). -/
def contents_of (b : Option MyBuff.mybuff) : List Byte :=
  match b with
  | some x => contents x
  | none => []

/-! ### Module initialisation and exit -/

/-- Value of `ENODEV` in `<linux/errno.h>`. -/
def ENODEV : Int := 19

/-- Value of `EINVAL` in `<linux/errno.h>`. -/
def EINVAL : Int := 22

/-- The macro `MYDEV_MAX_NUM`. -/
def MYDEV_MAX_NUM : Nat := 64

/-- The macro `MYDEV_MAX_SIZE`. -/
def MYDEV_MAX_SIZE : Nat := 128 * 1024

/-- The resource operations of `mydev_init` and `mydev_exit`, in program
order; `i` is the index of the device concerned. -/
inductive InitEvent where
  | chrdev_region (ok : Bool)
  | kzalloc (ok : Bool)
  | mybuff_create (i : Nat) (ok : Bool)
  | mybuff_delete (i : Nat)
  | cdev_add (i : Nat) (ok : Bool)
  | cdev_del (i : Nat)
  | class_create
  | class_destroy
  | device_create (i : Nat)
  | device_destroy (i : Nat)
  | kfree_mydev
  | unregister_chrdev_region
  deriving DecidableEq, Repr

/-- The environment of `mydev_init`: whether the character device region is
obtained, whether `kzalloc` succeeds, the outcomes of the two `alloc` calls of
the `i`-th `mybuff_create`, and whether the `i`-th `cdev_add` succeeds. -/
structure InitEnv where
  region_ok : Bool
  kzalloc_ok : Bool
  alloc : Nat → Bool × Option (Nat → Byte)
  cdev_add_ok : Nat → Bool

/-- Outcome of `mydev_init`: the return value, the array `mydev` when it is
still allocated at return, and the resource operations performed. -/
structure InitResult where
  retval : Int
  mydev : Option (List mydev_info)
  trace : List InitEvent
  deriving DecidableEq, Repr

/-- The loop of `mydev_init` that creates the ring buffers, for the devices
`i`, `i + 1`, ... (`n` of them left to do); the flag is false when it left
through `goto err3`.  The array comes from `kzalloc`, so each handle is null
when `mybuff_create` is entered. -/
def init_buffers (size : Int) (alloc : Nat → Bool × Option (Nat → Byte)) :
    Nat → Nat → List mydev_info → List InitEvent → Bool × List mydev_info × List InitEvent
  | 0, _, devs, tr => (true, devs, tr)
  | n + 1, i, devs, tr =>
    if (mybuff_create none size (alloc i).1 (alloc i).2).1 < 0 then
      (false, devs, tr ++ [InitEvent.mybuff_create i false])
    else
      init_buffers size alloc n (i + 1)
        (devs ++ [{ mybuff := (mybuff_create none size (alloc i).1 (alloc i).2).2
                    async_queue := false }])
        (tr ++ [InitEvent.mybuff_create i true])

/-- The loop of `mydev_init` that adds the character devices; the flag is
false when it left through `goto err4`. -/
def init_cdevs (cdev_add_ok : Nat → Bool) :
    Nat → Nat → List InitEvent → Bool × List InitEvent
  | 0, _, tr => (true, tr)
  | n + 1, i, tr =>
    if !cdev_add_ok i then (false, tr ++ [InitEvent.cdev_add i false])
    else init_cdevs cdev_add_ok n (i + 1) (tr ++ [InitEvent.cdev_add i true])

/-- The function `mydev_init` for the module parameters `mydev_no` and
`mydev_size` (both `unsigned int`).  `mydev_major` is 0 when the module is
loaded, so the region comes from `alloc_chrdev_region`.  Where `mydev_size` is
passed to the `int` parameter of `mybuff_create` it is at most
`MYDEV_MAX_SIZE`, so the conversion keeps its value. -/
def mydev_init (mydev_no mydev_size : Nat) (env : InitEnv) : InitResult :=
  if mydev_no = 0 ∨ mydev_no > MYDEV_MAX_NUM then
    { retval := -EINVAL, mydev := none, trace := [] }
  else if mydev_size > MYDEV_MAX_SIZE then
    { retval := -EINVAL, mydev := none, trace := [] }
  else if !env.region_ok then
    { retval := -ENODEV, mydev := none, trace := [InitEvent.chrdev_region false] }
  else if !env.kzalloc_ok then
    { retval := -ENOMEM, mydev := none
      trace := [InitEvent.chrdev_region true, InitEvent.kzalloc false,
                InitEvent.unregister_chrdev_region] }
  else
    match init_buffers mydev_size env.alloc mydev_no 0 []
        [InitEvent.chrdev_region true, InitEvent.kzalloc true] with
    | (false, _, tr) =>
      { retval := -ENOMEM, mydev := none
        trace := tr ++ [InitEvent.kfree_mydev, InitEvent.unregister_chrdev_region] }
    | (true, devs, tr) =>
      match init_cdevs env.cdev_add_ok mydev_no 0 tr with
      | (false, tr1) =>
        { retval := -ENODEV, mydev := none
          trace := tr1 ++ [InitEvent.kfree_mydev, InitEvent.unregister_chrdev_region] }
      | (true, tr1) =>
        { retval := 0, mydev := some devs
          trace := tr1 ++ [InitEvent.class_create]
                     ++ (List.range mydev_no).map InitEvent.device_create }

/-- The resource operations of `mydev_exit` for `mydev_no` devices. -/
def mydev_exit (mydev_no : Nat) : List InitEvent :=
  (List.range mydev_no).map InitEvent.device_destroy ++ [InitEvent.class_destroy]
    ++ (List.range mydev_no).map InitEvent.cdev_del
    ++ (List.range mydev_no).map InitEvent.mybuff_delete
    ++ [InitEvent.kfree_mydev, InitEvent.unregister_chrdev_region]

/-- The ring buffers that a trace leaves allocated: those created
successfully and not passed to `mybuff_delete` afterwards. -/
def live_buffers (tr : List InitEvent) : List Nat :=
  tr.foldl (fun acc e =>
    match e with
    | InitEvent.mybuff_create i true => acc ++ [i]
    | InitEvent.mybuff_delete i => acc.erase i
    | _ => acc) []

end MyDev

/-! ## Ring buffer: arithmetic of the indices -/

namespace MyBuff
open Status

theorem tmod_succ (i n : Int) (h0 : 0 ≤ i) (h1 : i < n) :
    (i + 1).tmod n = if i + 1 = n then 0 else i + 1 := by
  split_ifs with h
  · rw [h]; exact Int.tmod_self
  · exact Int.tmod_eq_of_lt (by omega) (by omega)

theorem mod_wrap (a n : Nat) (h : a < 2 * n) :
    a % n = if a < n then a else a - n := by
  split_ifs with h1
  · exact Nat.mod_eq_of_lt h1
  · rw [Nat.mod_eq_sub_mod (by omega)]; exact Nat.mod_eq_of_lt (by omega)

theorem read_loop_succ (n : Nat) (b : mybuff) (out : List Byte)
    (hs : b.status ≠ MYBUFF_EMPTY) :
    mybuff_read_loop (n + 1) b out
      = mybuff_read_loop n (read_step b) (out ++ [load b.buff b.read_idx]) := by
  simp [mybuff_read_loop, read_step, hs]

theorem read_loop_empty (n : Nat) (b : mybuff) (out : List Byte)
    (hs : b.status = MYBUFF_EMPTY) :
    mybuff_read_loop n b out = (b, out) := by
  cases n <;> simp [mybuff_read_loop, hs]

theorem write_loop_succ (buff : List Byte) (n : Nat) (b : mybuff) (k : Nat)
    (hs : b.status ≠ MYBUFF_FULL) :
    mybuff_write_loop buff (n + 1) b k
      = mybuff_write_loop buff n (write_step b (buff.getD k 0)) (k + 1) := by
  simp [mybuff_write_loop, write_step, hs]

theorem write_loop_full (buff : List Byte) (n : Nat) (b : mybuff) (k : Nat)
    (hs : b.status = MYBUFF_FULL) :
    mybuff_write_loop buff n b k = (b, k) := by
  cases n <;> simp [mybuff_write_loop, hs]

theorem WF_read_step (b : mybuff) (h : WF b) : WF (read_step b) := by
  obtain ⟨h1, h2, h3, h4, h5, h6, h7⟩ := h
  have ht := tmod_succ b.read_idx b.size h3 h4
  unfold WF read_step
  simp only [ht]
  refine ⟨h1, h2, ?_, ?_, h5, h6, ?_⟩
  · split_ifs <;> omega
  · split_ifs <;> omega
  · split_ifs <;> simp_all

theorem WF_write_step (b : mybuff) (x : Byte) (h : WF b) : WF (write_step b x) := by
  obtain ⟨h1, h2, h3, h4, h5, h6, h7⟩ := h
  have ht := tmod_succ b.write_idx b.size h5 h6
  unfold WF write_step
  simp only [ht]
  refine ⟨h1, by simp [store, h2], h3, h4, ?_, ?_, ?_⟩
  · split_ifs <;> omega
  · split_ifs <;> omega
  · split_ifs <;> simp_all <;> omega

theorem ready_eq (b : mybuff) :
    mybuff_ready (some b) = b.size - mybuff_free (some b) := rfl

theorem free_bounds (b : mybuff) (h : WF b) :
    0 ≤ mybuff_free (some b) ∧ mybuff_free (some b) ≤ b.size ∧
    (mybuff_free (some b) = 0 ↔ b.status = MYBUFF_FULL) ∧
    (mybuff_free (some b) = b.size ↔ b.status = MYBUFF_EMPTY) := by
  obtain ⟨h1, h2, h3, h4, h5, h6, h7⟩ := h
  unfold mybuff_free
  cases hs : b.status <;> simp only [hs] at h7 ⊢ <;> simp at h7 ⊢
  · omega
  · split_ifs <;> omega
  · omega

theorem free_read_step (b : mybuff) (h : WF b) (hs : b.status ≠ MYBUFF_EMPTY) :
    mybuff_free (some (read_step b)) = mybuff_free (some b) + 1 := by
  obtain ⟨h1, h2, h3, h4, h5, h6, h7⟩ := h
  have ht := tmod_succ b.read_idx b.size h3 h4
  unfold mybuff_free read_step
  simp only [ht]
  cases hst : b.status <;> simp only [hst] at h7 hs ⊢ <;> simp at h7 hs ⊢ <;>
    split_ifs <;> simp_all <;> omega

theorem free_write_step (b : mybuff) (x : Byte) (h : WF b) (hs : b.status ≠ MYBUFF_FULL) :
    mybuff_free (some (write_step b x)) = mybuff_free (some b) - 1 := by
  obtain ⟨h1, h2, h3, h4, h5, h6, h7⟩ := h
  have ht := tmod_succ b.write_idx b.size h5 h6
  unfold mybuff_free write_step
  simp only [ht]
  cases hst : b.status <;> simp only [hst] at h7 hs ⊢ <;> simp at h7 hs ⊢ <;>
    split_ifs <;> simp_all <;> omega

/-! ## Ring buffer: the stored bytes -/

theorem idx_succ (i n : Int) (h0 : 0 ≤ i) (h1 : i < n) :
    ((i + 1).tmod n).toNat = (i.toNat + 1) % n.toNat := by
  rw [tmod_succ i n h0 h1, mod_wrap _ _ (by omega)]
  split_ifs <;> omega

theorem ring_pos (b : mybuff) (h : WF b) (hs : b.status ≠ MYBUFF_FULL) :
    (b.read_idx.toNat + (mybuff_ready (some b)).toNat) % b.size.toNat = b.write_idx.toNat ∧
    ∀ i, i < (mybuff_ready (some b)).toNat →
      (b.read_idx.toNat + i) % b.size.toNat ≠ b.write_idx.toNat := by
  obtain ⟨h1, h2, h3, h4, h5, h6, h7⟩ := h
  have hb : (mybuff_ready (some b)).toNat < b.size.toNat := by
    have hf := free_bounds b ⟨h1, h2, h3, h4, h5, h6, h7⟩
    have hne : mybuff_free (some b) ≠ 0 := fun h0 => hs (hf.2.2.1.mp h0)
    rw [ready_eq]; omega
  constructor
  · rw [mod_wrap _ _ (by omega)]
    rw [ready_eq] at hb ⊢
    unfold mybuff_free at hb ⊢
    cases hst : b.status <;> simp only [hst] at h7 hs hb ⊢ <;> simp at h7 hs hb ⊢ <;>
      split_ifs <;> omega
  · intro i hi
    rw [mod_wrap _ _ (by omega)]
    rw [ready_eq] at hb hi
    unfold mybuff_free at hb hi
    cases hst : b.status <;> simp only [hst] at h7 hs hb hi <;>
      simp at h7 hs hb hi
    all_goals split_ifs at hi ⊢ <;> omega

theorem contents_length (b : mybuff) :
    (contents b).length = (mybuff_ready (some b)).toNat := by
  simp [contents]

theorem contents_read_step (b : mybuff) (h : WF b) (hs : b.status ≠ MYBUFF_EMPTY) :
    contents b = load b.buff b.read_idx :: contents (read_step b) := by
  have hf := free_read_step b h hs
  have hb := free_bounds b h
  have hb1 := free_bounds _ (WF_read_step b h)
  obtain ⟨h1, h2, h3, h4, h5, h6, h7⟩ := h
  have hr : (mybuff_ready (some b)).toNat
      = (mybuff_ready (some (read_step b))).toNat + 1 := by
    rw [ready_eq, ready_eq]
    have : (read_step b).size = b.size := rfl
    omega
  unfold contents
  rw [hr, List.range_succ_eq_map, List.map_cons, List.map_map]
  congr 1
  · simp only [load, Nat.add_zero]
    rw [Nat.mod_eq_of_lt (by omega)]
  · apply List.map_congr_left
    intro i _
    have hi := idx_succ b.read_idx b.size h3 h4
    simp only [Function.comp, read_step, hi, Nat.mod_add_mod]
    congr 2
    omega

theorem contents_write_step (b : mybuff) (x : Byte) (h : WF b)
    (hs : b.status ≠ MYBUFF_FULL) :
    contents (write_step b x) = contents b ++ [x] := by
  have hf := free_write_step b x h hs
  have hb := free_bounds b h
  have hb1 := free_bounds _ (WF_write_step b x h)
  have hp := ring_pos b h hs
  obtain ⟨h1, h2, h3, h4, h5, h6, h7⟩ := h
  have hr : (mybuff_ready (some (write_step b x))).toNat
      = (mybuff_ready (some b)).toNat + 1 := by
    rw [ready_eq, ready_eq]
    have : (write_step b x).size = b.size := rfl
    omega
  unfold contents
  rw [hr, List.range_succ, List.map_append]
  congr 1
  · apply List.map_congr_left
    intro i hi
    have hne := hp.2 i (List.mem_range.mp hi)
    simp only [write_step, store, List.getD_eq_getElem?_getD]
    rw [List.getElem?_set_ne (Ne.symm hne)]
  · simp only [List.map_cons, List.map_nil, write_step, store, hp.1,
      List.getD_eq_getElem?_getD]
    rw [List.getElem?_set_self (by omega)]
    rfl

theorem contents_empty (b : mybuff) (hs : b.status = MYBUFF_EMPTY) : contents b = [] := by
  simp [contents, mybuff_ready, mybuff_free, mybuff_size, hs]

/-- What the loop of `mybuff_read` does, in terms of the stored bytes. -/
theorem read_loop_spec (n : Nat) : ∀ (b : mybuff) (out : List Byte), WF b →
    WF (mybuff_read_loop n b out).1 ∧
    (mybuff_read_loop n b out).2 = out ++ (contents b).take n ∧
    contents (mybuff_read_loop n b out).1 = (contents b).drop n ∧
    (mybuff_read_loop n b out).1.size = b.size ∧
    (mybuff_read_loop n b out).1.buff = b.buff ∧
    (mybuff_read_loop n b out).1.write_idx = b.write_idx := by
  induction n with
  | zero => intro b out h; simp [mybuff_read_loop, h]
  | succ n ih =>
    intro b out h
    by_cases hs : b.status = MYBUFF_EMPTY
    · rw [read_loop_empty _ _ _ hs]
      simp [contents_empty b hs, h]
    · rw [read_loop_succ _ _ _ hs]
      obtain ⟨i1, i2, i3, i4, i5, i6⟩ := ih (read_step b)
        (out ++ [load b.buff b.read_idx]) (WF_read_step b h)
      rw [contents_read_step b h hs]
      refine ⟨i1, ?_, ?_, ?_, ?_, ?_⟩
      · rw [i2]; simp
      · rw [i3]; simp
      · rw [i4]; rfl
      · rw [i5]; rfl
      · rw [i6]; rfl

/-- What the loop of `mybuff_write` does, in terms of the stored bytes. -/
theorem write_loop_spec (data : List Byte) (n : Nat) : ∀ (b : mybuff) (k : Nat), WF b →
    WF (mybuff_write_loop data n b k).1 ∧
    (mybuff_write_loop data n b k).1.size = b.size ∧
    (mybuff_write_loop data n b k).1.read_idx = b.read_idx ∧
    k ≤ (mybuff_write_loop data n b k).2 ∧
    (((mybuff_write_loop data n b k).2 - k : Nat) : Int) = min (n : Int) (mybuff_free (some b)) ∧
    mybuff_free (some (mybuff_write_loop data n b k).1)
      = mybuff_free (some b) - (((mybuff_write_loop data n b k).2 - k : Nat) : Int) ∧
    (mybuff_write_loop data n b k).1.write_idx
      = (b.write_idx + (((mybuff_write_loop data n b k).2 - k : Nat) : Int)) % b.size ∧
    contents (mybuff_write_loop data n b k).1
      = contents b ++ (List.range ((mybuff_write_loop data n b k).2 - k)).map
          (fun j => data.getD (k + j) 0) := by
  induction n with
  | zero =>
    intro b k h
    have hb := free_bounds b h
    obtain ⟨h1, h2, h3, h4, h5, h6, h7⟩ := h
    rw [show mybuff_write_loop data 0 b k = (b, k) from rfl]
    refine ⟨⟨h1, h2, h3, h4, h5, h6, h7⟩, rfl, rfl, le_refl _, ?_, ?_, ?_, ?_⟩
    · simp; omega
    · simp
    · simp; exact (Int.emod_eq_of_lt h5 h6).symm
    · simp
  | succ n ih =>
    intro b k h
    have hb := free_bounds b h
    by_cases hs : b.status = MYBUFF_FULL
    · rw [write_loop_full _ _ _ _ hs]
      have hz := hb.2.2.1.mpr hs
      obtain ⟨h1, h2, h3, h4, h5, h6, h7⟩ := h
      refine ⟨⟨h1, h2, h3, h4, h5, h6, h7⟩, rfl, rfl, le_refl _, ?_, ?_, ?_, ?_⟩
      · simp [hz]; omega
      · simp
      · simp; exact (Int.emod_eq_of_lt h5 h6).symm
      · simp
    · rw [write_loop_succ _ _ _ _ hs]
      have hw := WF_write_step b (data.getD k 0) h
      have hf := free_write_step b (data.getD k 0) h hs
      have hne : mybuff_free (some b) ≠ 0 := fun h0 => hs (hb.2.2.1.mp h0)
      obtain ⟨i1, i2, i3, i4, i5, i6, i7, i8⟩ := ih (write_step b (data.getD k 0)) (k + 1) hw
      generalize mybuff_write_loop data n (write_step b (data.getD k 0)) (k + 1) = r at *
      have hk : r.2 - k = (r.2 - (k + 1)) + 1 := by omega
      have ⟨h1, h2, h3, h4, h5, h6, h7⟩ := h
      refine ⟨i1, by rw [i2]; rfl, by rw [i3]; rfl, by omega, ?_, ?_, ?_, ?_⟩
      · rw [hk]; push_cast; rw [i5, hf]; omega
      · rw [i6, hf, hk]; push_cast; omega
      · rw [i7, hk]
        have e1 : (write_step b (data.getD k 0)).write_idx = (b.write_idx + 1) % b.size := by
          show (b.write_idx + 1).tmod b.size = _
          rw [Int.tmod_eq_emod (by omega) (by omega)]
        have e2 : (write_step b (data.getD k 0)).size = b.size := rfl
        rw [e1, e2, Int.emod_add_emod]
        push_cast
        congr 1
        omega
      · rw [i8, contents_write_step b _ h (by exact hs), hk, List.range_succ_eq_map,
          List.map_cons, List.map_map, List.append_assoc, List.singleton_append]
        congr 2
        apply List.map_congr_left
        intro j _
        simp only [Function.comp]
        congr 1
        omega

/-! ## Ring buffer: the calls on a well-formed buffer -/

theorem WF_create (old : Option mybuff) (size : Int) (alloc_struct : Bool)
    (alloc_buff : Option (Nat → Byte)) (b : mybuff)
    (h : mybuff_create old size alloc_struct alloc_buff = (0, some b)) :
    WF b ∧ b.size = size ∧ b.read_idx = 0 ∧ b.write_idx = 0 ∧ b.status = MYBUFF_EMPTY := by
  unfold mybuff_create at h
  split_ifs at h with h1 h2
  · simp at h
  · cases alloc_buff with
    | none => simp at h
    | some g =>
      simp only [Prod.mk.injEq, Option.some.injEq, true_and] at h
      subst h
      refine ⟨⟨?_, ?_, ?_, ?_, ?_, ?_, ?_⟩, rfl, rfl, rfl, rfl⟩ <;> simp <;> omega
  · simp at h

theorem WF_clear (b : mybuff) (h : WF b) :
    WF { b with read_idx := 0, write_idx := 0, status := MYBUFF_EMPTY } := by
  obtain ⟨h1, h2, h3, h4, h5, h6, h7⟩ := h
  exact ⟨h1, h2, le_refl _, h1, le_refl _, h1, by simp⟩

theorem mybuff_read_some (b : mybuff) (count : Int) :
    mybuff_read (some b) count
      = { ret := ((mybuff_read_loop count.toNat b []).2.length : Int)
          out := (mybuff_read_loop count.toNat b []).2
          mybuff := some (mybuff_read_loop count.toNat b []).1 } := rfl

theorem mybuff_write_some (b : mybuff) (buff : List Byte) (count : Int) :
    mybuff_write (some b) buff count
      = { ret := ((mybuff_write_loop buff count.toNat b 0).2 : Int)
          mybuff := some (mybuff_write_loop buff count.toNat b 0).1 } := rfl

/-- Every reachable buffer is well-formed. -/
theorem Reachable.wf {b : mybuff} (h : Reachable b) : WF b := by
  induction h with
  | create old size a g b hc => exact (WF_create old size a g b hc).1
  | read b count b1 _ hr ih =>
    rw [mybuff_read_some] at hr
    simp only [Option.some.injEq] at hr
    subst hr
    exact (read_loop_spec _ b [] ih).1
  | write b buff count b1 _ hw ih =>
    rw [mybuff_write_some] at hw
    simp only [Option.some.injEq] at hw
    subst hw
    exact (write_loop_spec buff _ b 0 ih).1
  | clear b b1 _ hc ih =>
    simp only [mybuff_clear, Option.some.injEq] at hc
    subst hc
    exact WF_clear b ih

theorem contents_nil_iff (b : mybuff) (h : WF b) :
    contents b = [] ↔ b.status = MYBUFF_EMPTY := by
  have hb := free_bounds b h
  constructor
  · intro hc
    have hl := contents_length b
    rw [hc, ready_eq] at hl
    simp only [List.length_nil] at hl
    exact hb.2.2.2.mp (by omega)
  · exact contents_empty b

theorem range_getD_take (data : List Byte) (m : Nat) (h : m ≤ data.length) :
    (List.range m).map (fun j => data.getD (0 + j) 0) = data.take m := by
  apply List.ext_getElem
  · simp [h]
  · intro i h1 h2
    simp only [List.length_map, List.length_range] at h1
    simp [List.getD_eq_getElem?_getD, List.getElem?_eq_getElem (show i < data.length by omega)]

/-- The effect of `mybuff_write` on a well-formed buffer. -/
theorem write_spec (b : mybuff) (h : WF b) (buff : List Byte) (count : Int) :
    ∃ b1, (mybuff_write (some b) buff count).mybuff = some b1 ∧ WF b1 ∧
      b1.size = b.size ∧ b1.read_idx = b.read_idx ∧
      (mybuff_write (some b) buff count).ret
        = min ((count.toNat : Nat) : Int) (mybuff_free (some b)) ∧
      mybuff_free (some b1)
        = mybuff_free (some b) - (mybuff_write (some b) buff count).ret ∧
      b1.write_idx = (b.write_idx + (mybuff_write (some b) buff count).ret) % b.size ∧
      contents b1 = contents b ++
        (List.range (mybuff_write (some b) buff count).ret.toNat).map
          (fun j => buff.getD (0 + j) 0) := by
  obtain ⟨i1, i2, i3, i4, i5, i6, i7, i8⟩ := write_loop_spec buff count.toNat b 0 h
  rw [mybuff_write_some]
  simp only [Nat.sub_zero] at i5 i6 i7 i8
  exact ⟨_, rfl, i1, i2, i3, i5, i6, i7, by simpa using i8⟩

/-- The effect of `mybuff_read` on a well-formed buffer. -/
theorem read_spec (b : mybuff) (h : WF b) (count : Int) :
    ∃ b1, (mybuff_read (some b) count).mybuff = some b1 ∧ WF b1 ∧
      b1.size = b.size ∧ b1.write_idx = b.write_idx ∧ b1.buff = b.buff ∧
      (mybuff_read (some b) count).out = (contents b).take count.toNat ∧
      (mybuff_read (some b) count).ret = ((mybuff_read (some b) count).out.length : Int) ∧
      contents b1 = (contents b).drop count.toNat := by
  obtain ⟨i1, i2, i3, i4, i5, i6⟩ := read_loop_spec count.toNat b [] h
  rw [mybuff_read_some]
  exact ⟨_, rfl, i1, i4, i6, i5, by simpa using i2, rfl, i3⟩

theorem fresh_some (size : Int) (garbage : Nat → Byte) (h : 0 < size) :
    ∃ b, fresh size garbage = some b ∧ Reachable b ∧ b.size = size ∧
      b.status = MYBUFF_EMPTY := by
  have hc : mybuff_create none size true (some garbage)
      = (0, some { buff := (List.range size.toNat).map garbage
                   write_idx := 0, read_idx := 0, size := size
                   status := MYBUFF_EMPTY }) := by
    simp [mybuff_create, not_le.mpr h]
  exact ⟨_, by simp [fresh, hc], Reachable.create _ _ _ _ _ hc, rfl, rfl⟩

/-- Invariant of `run`: the bytes read so far followed by the stored bytes are
the bytes accepted so far. -/
theorem run_invariant (ops : List Op) : ∀ (r : Run) (b : mybuff),
    r.mybuff = some b → WF b → r.reads ++ contents b = r.accepted →
    ∃ b1, (run r ops).mybuff = some b1 ∧ WF b1 ∧
      (run r ops).reads ++ contents b1 = (run r ops).accepted := by
  induction ops with
  | nil => intro r b hb hw hi; exact ⟨b, hb, hw, hi⟩
  | cons op ops ih =>
    intro r b hb hw hi
    cases op with
    | write data =>
      obtain ⟨b1, e1, w1, _, _, e2, _, _, e3⟩ := write_spec b hw data data.length
      have hle : (mybuff_write (some b) data data.length).ret.toNat ≤ data.length := by
        rw [e2]; simp only [Int.toNat_ofNat]; omega
      rw [range_getD_take data _ hle] at e3
      simp only [run, hb]
      apply ih _ b1 e1 w1
      simp only [e3, ← List.append_assoc, hi]
    | read count =>
      obtain ⟨b1, e1, w1, _, _, _, e2, _, e3⟩ := read_spec b hw count
      simp only [run, hb]
      apply ih _ b1 e1 w1
      simp only [e2, e3, List.append_assoc, List.take_append_drop, hi]

theorem roundtrip_empty (chunks : List (List Byte)) : ∀ (b : mybuff), WF b →
    b.status = MYBUFF_EMPTY →
    (∀ ch ∈ chunks, 1 ≤ ch.length ∧ (ch.length : Int) ≤ b.size) →
    roundtrip (some b) chunks
      = chunks.map (fun ch => ((ch.length : Int), (ch.length : Int), ch)) := by
  induction chunks with
  | nil => intro b _ _ _; rfl
  | cons ch chunks ih =>
    intro b hw hs hch
    have hlen := hch ch (List.mem_cons_self _ _)
    have hfree : mybuff_free (some b) = b.size := (free_bounds b hw).2.2.2.mpr hs
    obtain ⟨b1, e1, w1, s1, _, e2, _, _, e3⟩ := write_spec b hw ch ch.length
    have hret : (mybuff_write (some b) ch ch.length).ret = (ch.length : Int) := by
      rw [e2, hfree]; simp only [Int.toNat_ofNat]; omega
    rw [hret, Int.toNat_ofNat, range_getD_take ch _ (le_refl _), List.take_length,
      contents_empty b hs, List.nil_append] at e3
    obtain ⟨b2, f1, w2, s2, _, _, f2, f3, f4⟩ := read_spec b1 w1 ch.length
    rw [e3, Int.toNat_ofNat] at f2 f4
    rw [List.take_length] at f2
    rw [List.drop_length] at f4
    rw [f2] at f3
    have hs2 : b2.status = MYBUFF_EMPTY := (contents_nil_iff b2 w2).mp f4
    have ih2 := ih b2 w2 hs2 (fun c hc => by
      rw [s2, s1]; exact hch c (List.mem_cons_of_mem _ hc))
    simp only [roundtrip, List.map_cons, e1, f1, ih2, hret, f2, f3]

end MyBuff

/-! ## Device: the wait loops -/

namespace MyDev
open MyBuff

theorem waits_append (a b : List Event) : waits (a ++ b) = waits a + waits b := by
  simp [waits, List.filter_append]

theorem env_buff_const (b : Option MyBuff.mybuff) (rounds : List Round) :
    ∀ k, (∀ r ∈ rounds, r.mybuff = b) → env_buff b rounds k = b := by
  induction rounds with
  | nil => intro k _; cases k <;> rfl
  | cons r rs ih =>
    intro k h
    cases k with
    | zero => rfl
    | succ k =>
      have hr := h r (List.mem_cons_self _ _)
      simp only [env_buff, hr]
      exact ih k (fun r1 h1 => h r1 (List.mem_cons_of_mem _ h1))

/-- An exit of the wait loop of `mydev_read` with a return value: the value is
`-EAGAIN` or `-ERESTARTSYS`, the buffer is the one the environment left, and
the loop called neither `mybuff_read` nor `mybuff_write`. -/
theorem read_wait_exit (nb : Bool) (rounds : List Round) :
    ∀ (b : Option MyBuff.mybuff) (tr : List Event) (rv : Int)
      (b1 : Option MyBuff.mybuff) (tr1 : List Event),
    mydev_read_wait nb rounds b tr = Wait.exit (some rv) b1 tr1 →
    (rv = -EAGAIN ∨ rv = -ERESTARTSYS) ∧ waits tr ≤ waits tr1 ∧
    b1 = env_buff b rounds (waits tr1 - waits tr) ∧
    (Event.mybuff_read ∉ tr → Event.mybuff_read ∉ tr1) ∧
    (Event.mybuff_write ∉ tr → Event.mybuff_write ∉ tr1) := by
  induction rounds with
  | nil =>
    intro b tr rv b1 tr1 h
    unfold mydev_read_wait at h
    split_ifs at h with h1 h2
    · simp only [Wait.exit.injEq, Option.some.injEq] at h
      obtain ⟨h3, h4, h5⟩ := h
      subst h3 h4 h5
      simp [waits_append, waits, env_buff]
    · simp at h
  | cons r rs ih =>
    intro b tr rv b1 tr1 h
    rw [mydev_read_wait] at h
    by_cases h1 : mybuff_ready b = 0
    · cases nb
      · cases hwi : r.wait_intr
        · cases hli : r.lock_intr
          · simp only [h1, hwi, hli, if_true, Bool.false_eq_true, if_false] at h
            obtain ⟨i1, i2, i3, i4, i5⟩ := ih _ _ _ _ _ h
            have hw : waits (tr ++ [Event.mutex_unlock, Event.wait_event Queue.in_queue,
                Event.mutex_lock true]) = waits tr + 1 := by
              simp [waits_append, waits]
            rw [hw] at i2 i3
            refine ⟨i1, by omega, ?_, ?_, ?_⟩
            · rw [i3, show waits tr1 - waits tr = (waits tr1 - (waits tr + 1)) + 1 by omega]
              rfl
            · intro hn; exact i4 (by simpa using hn)
            · intro hn; exact i5 (by simpa using hn)
          · simp only [h1, hwi, hli, if_true, Bool.false_eq_true, if_false,
              Wait.exit.injEq, Option.some.injEq] at h
            obtain ⟨h5, h6, h7⟩ := h
            subst h5 h6 h7
            simp [waits_append, waits, env_buff]
        · simp only [h1, hwi, if_true, Bool.false_eq_true, if_false,
            Wait.exit.injEq, Option.some.injEq] at h
          obtain ⟨h5, h6, h7⟩ := h
          subst h5 h6 h7
          simp [waits_append, waits, env_buff]
      · simp only [h1, if_true, Wait.exit.injEq, Option.some.injEq] at h
        obtain ⟨h5, h6, h7⟩ := h
        subst h5 h6 h7
        simp [waits_append, waits, env_buff]
    · simp [h1] at h

/-- The same for the wait loop of `mydev_write`. -/
theorem write_wait_exit (nb : Bool) (rounds : List Round) :
    ∀ (b : Option MyBuff.mybuff) (tr : List Event) (rv : Int)
      (b1 : Option MyBuff.mybuff) (tr1 : List Event),
    mydev_write_wait nb rounds b tr = Wait.exit (some rv) b1 tr1 →
    (rv = -EAGAIN ∨ rv = -ERESTARTSYS) ∧ waits tr ≤ waits tr1 ∧
    b1 = env_buff b rounds (waits tr1 - waits tr) ∧
    (Event.mybuff_read ∉ tr → Event.mybuff_read ∉ tr1) ∧
    (Event.mybuff_write ∉ tr → Event.mybuff_write ∉ tr1) := by
  induction rounds with
  | nil =>
    intro b tr rv b1 tr1 h
    unfold mydev_write_wait at h
    split_ifs at h with h1 h2
    · simp only [Wait.exit.injEq, Option.some.injEq] at h
      obtain ⟨h3, h4, h5⟩ := h
      subst h3 h4 h5
      simp [waits_append, waits, env_buff]
    · simp at h
  | cons r rs ih =>
    intro b tr rv b1 tr1 h
    rw [mydev_write_wait] at h
    by_cases h1 : mybuff_free b = 0
    · cases nb
      · cases hwi : r.wait_intr
        · cases hli : r.lock_intr
          · simp only [h1, hwi, hli, if_true, Bool.false_eq_true, if_false] at h
            obtain ⟨i1, i2, i3, i4, i5⟩ := ih _ _ _ _ _ h
            have hw : waits (tr ++ [Event.mutex_unlock, Event.wait_event Queue.out_queue,
                Event.mutex_lock true]) = waits tr + 1 := by
              simp [waits_append, waits]
            rw [hw] at i2 i3
            refine ⟨i1, by omega, ?_, ?_, ?_⟩
            · rw [i3, show waits tr1 - waits tr = (waits tr1 - (waits tr + 1)) + 1 by omega]
              rfl
            · intro hn; exact i4 (by simpa using hn)
            · intro hn; exact i5 (by simpa using hn)
          · simp only [h1, hwi, hli, if_true, Bool.false_eq_true, if_false,
              Wait.exit.injEq, Option.some.injEq] at h
            obtain ⟨h5, h6, h7⟩ := h
            subst h5 h6 h7
            simp [waits_append, waits, env_buff]
        · simp only [h1, hwi, if_true, Bool.false_eq_true, if_false,
            Wait.exit.injEq, Option.some.injEq] at h
          obtain ⟨h5, h6, h7⟩ := h
          subst h5 h6 h7
          simp [waits_append, waits, env_buff]
      · simp only [h1, if_true, Wait.exit.injEq, Option.some.injEq] at h
        obtain ⟨h5, h6, h7⟩ := h
        subst h5 h6 h7
        simp [waits_append, waits, env_buff]
    · simp [h1] at h

theorem read_wait_nonblock (rounds : List Round) (b : Option MyBuff.mybuff)
    (tr : List Event) :
    mydev_read_wait true rounds b tr
      = if mybuff_ready b = 0 then Wait.exit (some (-EAGAIN)) b (tr ++ [Event.mutex_unlock])
        else Wait.proceed b tr := by
  unfold mydev_read_wait; simp

theorem write_wait_nonblock (rounds : List Round) (b : Option MyBuff.mybuff)
    (tr : List Event) :
    mydev_write_wait true rounds b tr
      = if mybuff_free b = 0 then Wait.exit (some (-EAGAIN)) b (tr ++ [Event.mutex_unlock])
        else Wait.proceed b tr := by
  unfold mydev_write_wait; simp

theorem read_ret_nonneg (b : Option MyBuff.mybuff) (count : Int) :
    0 ≤ (mybuff_read b count).ret := by
  cases b <;> simp [mybuff_read]

theorem write_ret_nonneg (b : Option MyBuff.mybuff) (buff : List Byte) (count : Int) :
    0 ≤ (mybuff_write b buff count).ret := by
  cases b <;> simp [mybuff_write]

end MyDev

/-! ## The ring buffer: stated properties -/

namespace MyBuff
open Status

/-- C1 (FIFO law): on a buffer freshly made by `mybuff_create` with capacity
`size > 0`, after any finite sequence of `mybuff_write` and `mybuff_read` calls
the concatenation of the bytes returned by the reads equals the first `k` bytes
of the concatenation of the bytes accepted by the writes, `k` being the number
of bytes read; so the `n`-th byte read is the `n`-th byte written. -/
theorem fifo_law (size : Int) (garbage : Nat → Byte) (ops : List Op) (hsize : 0 < size) :
    (run ⟨fresh size garbage, [], []⟩ ops).reads
      = (run ⟨fresh size garbage, [], []⟩ ops).accepted.take
          (run ⟨fresh size garbage, [], []⟩ ops).reads.length ∧
    ∀ n, n < (run ⟨fresh size garbage, [], []⟩ ops).reads.length →
      (run ⟨fresh size garbage, [], []⟩ ops).reads[n]?
        = (run ⟨fresh size garbage, [], []⟩ ops).accepted[n]? := by
  obtain ⟨b, hb, hr, _, hs⟩ := fresh_some size garbage hsize
  obtain ⟨b1, _, _, h3⟩ := run_invariant ops ⟨fresh size garbage, [], []⟩ b hb hr.wf
    (by simp [contents_empty b hs])
  generalize run ⟨fresh size garbage, [], []⟩ ops = r at h3
  rw [← h3]
  refine ⟨by simp, ?_⟩
  intro n hn
  rw [List.getElem?_append_left hn]

/-- Witness of C1: capacity 2, write "AB", read 1, write "C", read 2. -/
theorem fifo_law_witness :
    (run ⟨fresh 2 (fun _ => 0), [], []⟩
        [Op.write [65, 66], Op.read 1, Op.write [67], Op.read 2]).reads = [65, 66, 67] ∧
    (run ⟨fresh 2 (fun _ => 0), [], []⟩
        [Op.write [65, 66], Op.read 1, Op.write [67], Op.read 2]).accepted.take 3
      = [65, 66, 67] ∧
    (run ⟨fresh 2 (fun _ => 0), [], []⟩
        [Op.write [65, 66], Op.read 1, Op.write [67], Op.read 2]).reads
      = (run ⟨fresh 2 (fun _ => 0), [], []⟩
          [Op.write [65, 66], Op.read 1, Op.write [67], Op.read 2]).accepted.take
          (run ⟨fresh 2 (fun _ => 0), [], []⟩
            [Op.write [65, 66], Op.read 1, Op.write [67], Op.read 2]).reads.length :=
  ⟨by decide, by decide,
    (fifo_law 2 (fun _ => 0) [Op.write [65, 66], Op.read 1, Op.write [67], Op.read 2]
      (by decide)).1⟩

/-- C2 (wraparound round trip): for every capacity `c > 0` and every list of
chunks each of length between 1 and `c`, writing then reading each chunk in
turn on a fresh buffer makes every write return the chunk's length and every
read return exactly the chunk's bytes.  Scenario C run sequentially: capacity
2, write "AB", read(1) gives "A", write "C" returns 1, read(2) gives "BC". -/
theorem wraparound_roundtrip (c : Int) (garbage : Nat → Byte) (chunks : List (List Byte))
    (hc : 0 < c) (hch : ∀ ch ∈ chunks, 1 ≤ ch.length ∧ (ch.length : Int) ≤ c) :
    roundtrip (fresh c garbage) chunks
      = chunks.map (fun ch => ((ch.length : Int), (ch.length : Int), ch)) ∧
    ((mybuff_write (fresh 2 garbage) [65, 66] 2).ret = 2 ∧
     (mybuff_read (mybuff_write (fresh 2 garbage) [65, 66] 2).mybuff 1).out = [65] ∧
     (mybuff_write (mybuff_read (mybuff_write (fresh 2 garbage) [65, 66] 2).mybuff 1).mybuff
        [67] 1).ret = 1 ∧
     (mybuff_read (mybuff_write (mybuff_read (mybuff_write (fresh 2 garbage)
        [65, 66] 2).mybuff 1).mybuff [67] 1).mybuff 2).out = [66, 67]) := by
  obtain ⟨b, hb, hr, hsz, hs⟩ := fresh_some c garbage hc
  refine ⟨?_, rfl, rfl, rfl, rfl⟩
  rw [hb]
  exact roundtrip_empty chunks b hr.wf hs (by rw [hsz]; exact hch)

/-- Witness of C2: capacity 2 and three chunks of total length 5. -/
theorem wraparound_roundtrip_witness :
    roundtrip (fresh 2 (fun _ => 0)) [[65, 66], [67], [68, 69]]
      = [(2, 2, [65, 66]), (1, 1, [67]), (2, 2, [68, 69])] :=
  (wraparound_roundtrip 2 (fun _ => 0) [[65, 66], [67], [68, 69]] (by decide)
    (by decide)).1

/-- C3: on every state reachable from a successful `mybuff_create` by
`mybuff_read`, `mybuff_write` and `mybuff_clear`,
`mybuff_ready(b) + mybuff_free(b) == mybuff_size(b)`, both summands being
non-negative. -/
theorem ready_plus_free (b : mybuff) (h : Reachable b) :
    mybuff_ready (some b) + mybuff_free (some b) = mybuff_size (some b) ∧
    0 ≤ mybuff_ready (some b) ∧ 0 ≤ mybuff_free (some b) := by
  have hb := free_bounds b h.wf
  rw [ready_eq]
  simp only [mybuff_size]
  omega

/-- Witness of C3: the buffer of capacity 4 after writing "AB". -/
theorem ready_plus_free_witness :
    mybuff_ready (some ⟨[65, 66, 0, 0], 2, 0, 4, MYBUFF_DATA⟩)
        + mybuff_free (some ⟨[65, 66, 0, 0], 2, 0, 4, MYBUFF_DATA⟩) = 4 :=
  (ready_plus_free ⟨[65, 66, 0, 0], 2, 0, 4, MYBUFF_DATA⟩
    (Reachable.write ⟨[0, 0, 0, 0], 0, 0, 4, MYBUFF_EMPTY⟩ [65, 66] 2 _
      (Reachable.create none 4 true (some (fun _ => 0)) _ (by decide)) (by decide))).1

/-- C4: on every reachable buffer and for every `count >= 0`, `mybuff_write`
returns exactly `min(count, free())` with `free()` taken at entry; afterwards
`ready()` has grown and `free()` has shrunk by the returned value, and
`write_idx` has advanced by the returned value modulo the capacity.  The
returned value is never negative. -/
theorem write_returns_min (b : mybuff) (h : Reachable b) (buff : List Byte) (count : Int)
    (hc : 0 ≤ count) :
    (mybuff_write (some b) buff count).ret = min count (mybuff_free (some b)) ∧
    0 ≤ (mybuff_write (some b) buff count).ret ∧
    mybuff_ready (mybuff_write (some b) buff count).mybuff
      = mybuff_ready (some b) + (mybuff_write (some b) buff count).ret ∧
    mybuff_free (mybuff_write (some b) buff count).mybuff
      = mybuff_free (some b) - (mybuff_write (some b) buff count).ret ∧
    ∃ b1, (mybuff_write (some b) buff count).mybuff = some b1 ∧
      b1.write_idx = (b.write_idx + (mybuff_write (some b) buff count).ret) % b.size ∧
      b1.read_idx = b.read_idx ∧ b1.size = b.size := by
  obtain ⟨b1, e1, _, e2, e3, e4, e5, e6, _⟩ := write_spec b h.wf buff count
  have hb := free_bounds b h.wf
  rw [Int.toNat_of_nonneg hc] at e4
  rw [e1, ready_eq, ready_eq, e5, e2]
  refine ⟨e4, by omega, by omega, rfl, b1, rfl, e6, e3, e2⟩

/-- Witness of C4 (Scenario A): capacity 4, write "AB" returns 2 and leaves
`ready() = 2`, `free() = 2`. -/
theorem write_returns_min_witness :
    (mybuff_write (some ⟨[0, 0, 0, 0], 0, 0, 4, MYBUFF_EMPTY⟩) [65, 66] 2).ret = 2 ∧
    mybuff_ready (mybuff_write (some ⟨[0, 0, 0, 0], 0, 0, 4, MYBUFF_EMPTY⟩)
      [65, 66] 2).mybuff = 2 ∧
    mybuff_free (mybuff_write (some ⟨[0, 0, 0, 0], 0, 0, 4, MYBUFF_EMPTY⟩)
      [65, 66] 2).mybuff = 2 ∧
    (mybuff_write (some ⟨[0, 0, 0, 0], 0, 0, 4, MYBUFF_EMPTY⟩) [65, 66] 2).ret
      = min 2 (mybuff_free (some ⟨[0, 0, 0, 0], 0, 0, 4, MYBUFF_EMPTY⟩)) :=
  ⟨by decide, by decide, by decide,
    (write_returns_min ⟨[0, 0, 0, 0], 0, 0, 4, MYBUFF_EMPTY⟩
      (Reachable.create none 4 true (some (fun _ => 0)) _ (by decide)) [65, 66] 2
      (by decide)).1⟩

/-- C5: on every reachable buffer and for every `max_count >= 0`, `mybuff_read`
returns exactly `min(max_count, ready())` with `ready()` taken at entry, so
never more than `max_count` nor more than were ready; it delivers that many
bytes; afterwards `ready()` has shrunk and `free()` has grown by the returned
value. -/
theorem read_returns_min (b : mybuff) (h : Reachable b) (count : Int) (hc : 0 ≤ count) :
    (mybuff_read (some b) count).ret = min count (mybuff_ready (some b)) ∧
    (mybuff_read (some b) count).ret ≤ count ∧
    (mybuff_read (some b) count).ret ≤ mybuff_ready (some b) ∧
    ((mybuff_read (some b) count).out.length : Int) = (mybuff_read (some b) count).ret ∧
    mybuff_ready (mybuff_read (some b) count).mybuff
      = mybuff_ready (some b) - (mybuff_read (some b) count).ret ∧
    mybuff_free (mybuff_read (some b) count).mybuff
      = mybuff_free (some b) + (mybuff_read (some b) count).ret := by
  obtain ⟨b1, e1, w1, e2, _, _, e3, e4, e5⟩ := read_spec b h.wf count
  have hb := free_bounds b h.wf
  have hb1 := free_bounds b1 w1
  have hl := contents_length b
  have hl1 := contents_length b1
  rw [e5, List.length_drop, hl] at hl1
  have hr : (mybuff_read (some b) count).ret
      = ((min count.toNat (mybuff_ready (some b)).toNat : Nat) : Int) := by
    rw [e4, e3, List.length_take, hl]
  rw [e1]
  rw [ready_eq] at hl1 hr ⊢
  rw [ready_eq] at hl1 ⊢
  rw [e2] at hl1 ⊢
  rw [e4]
  rw [e4] at hr
  omega

/-- Witness of C5 (Scenario A, second half): capacity 4 holding "AB", read(1)
returns 1 byte and leaves `ready() = 1`, `free() = 3`. -/
theorem read_returns_min_witness :
    (mybuff_read (some ⟨[65, 66, 0, 0], 2, 0, 4, MYBUFF_DATA⟩) 1).out = [65] ∧
    mybuff_ready (mybuff_read (some ⟨[65, 66, 0, 0], 2, 0, 4, MYBUFF_DATA⟩) 1).mybuff = 1 ∧
    mybuff_free (mybuff_read (some ⟨[65, 66, 0, 0], 2, 0, 4, MYBUFF_DATA⟩) 1).mybuff = 3 ∧
    (mybuff_read (some ⟨[65, 66, 0, 0], 2, 0, 4, MYBUFF_DATA⟩) 1).ret
      = min 1 (mybuff_ready (some ⟨[65, 66, 0, 0], 2, 0, 4, MYBUFF_DATA⟩)) :=
  ⟨by decide, by decide, by decide,
    (read_returns_min ⟨[65, 66, 0, 0], 2, 0, 4, MYBUFF_DATA⟩
      (Reachable.write ⟨[0, 0, 0, 0], 0, 0, 4, MYBUFF_EMPTY⟩ [65, 66] 2 _
        (Reachable.create none 4 true (some (fun _ => 0)) _ (by decide)) (by decide))
      1 (by decide)).1⟩

end MyBuff

namespace MyBuff
open Status

/-- C6: `mybuff_create` fails for every capacity `<= 0` and leaves the handle
as it was (no buffer is produced); when both allocations succeed it succeeds
for every capacity `>= 1` with `read_idx = 0`, `write_idx = 0`, status Empty,
`size() = capacity`, `free() = capacity`, `ready() = 0`; when the storage (or
the structure) allocation fails it fails and the handle is null. -/
theorem create_spec (old : Option mybuff) (size : Int) :
    (size ≤ 0 → ∀ a g, mybuff_create old size a g = (-1, old)) ∧
    (1 ≤ size → ∀ g, ∃ b, mybuff_create old size true (some g) = (0, some b) ∧
      b.read_idx = 0 ∧ b.write_idx = 0 ∧ b.status = MYBUFF_EMPTY ∧
      b.buff.length = size.toNat ∧ mybuff_size (some b) = size ∧
      mybuff_free (some b) = size ∧ mybuff_ready (some b) = 0) ∧
    (1 ≤ size → mybuff_create old size true none = (-1, none)) ∧
    (1 ≤ size → ∀ g, mybuff_create old size false g = (-1, none)) := by
  refine ⟨?_, ?_, ?_, ?_⟩
  · intro h a g
    simp [mybuff_create, h]
  · intro h g
    have hn : ¬ size ≤ 0 := by omega
    refine ⟨{ buff := (List.range size.toNat).map g, write_idx := 0, read_idx := 0
              size := size, status := MYBUFF_EMPTY }, ?_, rfl, rfl, rfl, ?_, rfl, rfl, ?_⟩
    · simp only [mybuff_create, hn, if_false, if_true]
    · simp
    · simp [mybuff_ready, mybuff_size, mybuff_free]
  · intro h
    have hn : ¬ size ≤ 0 := by omega
    simp [mybuff_create, hn]
  · intro h g
    have hn : ¬ size ≤ 0 := by omega
    simp [mybuff_create, hn]

/-- Witness of C6: capacities 0 and -1 fail without a buffer, capacity 1
succeeds. -/
theorem create_spec_witness :
    mybuff_create none 0 true (some (fun _ => 0)) = (-1, none) ∧
    mybuff_create none (-1) true (some (fun _ => 0)) = (-1, none) ∧
    (∃ b, mybuff_create none 1 true (some (fun _ => 0)) = (0, some b) ∧
      b.read_idx = 0 ∧ b.write_idx = 0 ∧ b.status = MYBUFF_EMPTY ∧
      b.buff.length = (1 : Int).toNat ∧ mybuff_size (some b) = 1 ∧
      mybuff_free (some b) = 1 ∧ mybuff_ready (some b) = 0) :=
  ⟨(create_spec none 0).1 (by decide) true (some (fun _ => 0)),
   (create_spec none (-1)).1 (by decide) true (some (fun _ => 0)),
   (create_spec none 1).2.1 (by decide) (fun _ => 0)⟩

/-- C7: on every reachable buffer `mybuff_free` equals the specification's
definition of `free()` (which tests `read_idx > write_idx` where the code tests
`read_idx >= write_idx`). -/
theorem free_matches_spec (b : mybuff) (h : Reachable b) :
    mybuff_free (some b) = free_spec b := by
  obtain ⟨h1, h2, h3, h4, h5, h6, h7⟩ := h.wf
  unfold mybuff_free free_spec
  cases hs : b.status <;> simp only [hs] at h7 ⊢ <;> simp at h7 ⊢
  split_ifs <;> omega

/-- Witness of C7: the buffer of capacity 4 after writing "AB" has 2 free
bytes under both definitions. -/
theorem free_matches_spec_witness :
    mybuff_free (some ⟨[65, 66, 0, 0], 2, 0, 4, MYBUFF_DATA⟩) = 2 ∧
    free_spec ⟨[65, 66, 0, 0], 2, 0, 4, MYBUFF_DATA⟩ = 2 ∧
    mybuff_free (some ⟨[65, 66, 0, 0], 2, 0, 4, MYBUFF_DATA⟩)
      = free_spec ⟨[65, 66, 0, 0], 2, 0, 4, MYBUFF_DATA⟩ :=
  ⟨by decide, by decide,
    free_matches_spec ⟨[65, 66, 0, 0], 2, 0, 4, MYBUFF_DATA⟩
      (Reachable.write ⟨[0, 0, 0, 0], 0, 0, 4, MYBUFF_EMPTY⟩ [65, 66] 2 _
        (Reachable.create none 4 true (some (fun _ => 0)) _ (by decide)) (by decide))⟩

/-- C8: for every buffer state `mybuff_clear` sets `read_idx = 0`,
`write_idx = 0` and status Empty and leaves `size` (and the storage) unchanged;
immediately afterwards `ready() = 0`, `free() = capacity`, and a `mybuff_read`
of any count returns 0 bytes and changes nothing. -/
theorem clear_resets (b : mybuff) (count : Int) :
    ∃ b1, mybuff_clear (some b) = some b1 ∧
      b1.read_idx = 0 ∧ b1.write_idx = 0 ∧ b1.status = MYBUFF_EMPTY ∧
      b1.size = b.size ∧ b1.buff = b.buff ∧
      mybuff_ready (some b1) = 0 ∧ mybuff_free (some b1) = b.size ∧
      (mybuff_read (some b1) count).ret = 0 ∧ (mybuff_read (some b1) count).out = [] ∧
      (mybuff_read (some b1) count).mybuff = some b1 := by
  refine ⟨_, rfl, rfl, rfl, rfl, rfl, rfl, ?_, rfl, ?_, ?_, ?_⟩
  · simp [mybuff_ready, mybuff_size, mybuff_free]
  · rw [mybuff_read_some, read_loop_empty _ _ _ rfl]; rfl
  · rw [mybuff_read_some, read_loop_empty _ _ _ rfl]
  · rw [mybuff_read_some, read_loop_empty _ _ _ rfl]

end MyBuff

/-! ## The device: stated properties -/

namespace MyDev
open MyBuff

theorem nonblock_flag (f_flags : Nat) (h : f_flags &&& O_NONBLOCK ≠ 0) :
    (f_flags &&& O_NONBLOCK != 0) = true := by
  simpa using h

theorem neg_errno_ne_of_nonneg (x : Int) (h : 0 ≤ x) :
    x ≠ -EAGAIN ∧ x ≠ -ERESTARTSYS := by
  simp only [EAGAIN, ERESTARTSYS]; omega

/-- C9: with `O_NONBLOCK` set and the lock acquired without interruption,
`mydev_read` returns `-EAGAIN` if and only if `ready() == 0` when the lock is
taken, and `mydev_write` returns `-EAGAIN` if and only if `free() == 0` when
the lock is taken; both calls return and neither performs a blocking wait. -/
theorem nonblocking_would_block (mydev : mydev_info) (f_flags : Nat) (buf : List Byte)
    (count : Nat) (env : Env) (hnb : f_flags &&& O_NONBLOCK ≠ 0)
    (hl : env.lock_intr = false) :
    ((mydev_read mydev f_flags count env).retval = some (-EAGAIN)
      ↔ mybuff_ready mydev.mybuff = 0) ∧
    ((mydev_write mydev f_flags buf count env).retval = some (-EAGAIN)
      ↔ mybuff_free mydev.mybuff = 0) ∧
    (mydev_read mydev f_flags count env).retval ≠ none ∧
    (mydev_write mydev f_flags buf count env).retval ≠ none ∧
    waits (mydev_read mydev f_flags count env).trace = 0 ∧
    waits (mydev_write mydev f_flags buf count env).trace = 0 := by
  have hf := nonblock_flag f_flags hnb
  have hr := neg_errno_ne_of_nonneg _ (read_ret_nonneg mydev.mybuff (int_of_size_t count))
  have hw := neg_errno_ne_of_nonneg _
    (write_ret_nonneg mydev.mybuff (buf.take count) (int_of_size_t count))
  have hne : -ENOMEM ≠ -EAGAIN ∧ -EFAULT ≠ -EAGAIN := by
    simp only [ENOMEM, EFAULT, EAGAIN]; omega
  unfold mydev_read mydev_write
  simp only [hl, hf, read_wait_nonblock, write_wait_nonblock, Bool.false_eq_true, if_false]
  refine ⟨?_, ?_, ?_, ?_, ?_, ?_⟩
  · by_cases h0 : mybuff_ready mydev.mybuff = 0
    · simp [h0]
    · cases hk : env.kmalloc_ok <;>
        by_cases hc : copy_fails env.copy_ok
          (mybuff_read mydev.mybuff (int_of_size_t count)).ret = true <;>
        simp [h0, hk, hc, hne.1, hne.2, hr.1]
  · by_cases h0 : mybuff_free mydev.mybuff = 0
    · simp [h0]
    · cases hk : env.kmalloc_ok <;>
        by_cases hc : copy_fails env.copy_ok (count : Int) = true <;>
        simp [h0, hk, hc, hne.1, hne.2, hw.1]
  · by_cases h0 : mybuff_ready mydev.mybuff = 0 <;> cases hk : env.kmalloc_ok <;>
      by_cases hc : copy_fails env.copy_ok
        (mybuff_read mydev.mybuff (int_of_size_t count)).ret = true <;>
      simp [h0, hk, hc]
  · by_cases h0 : mybuff_free mydev.mybuff = 0 <;> cases hk : env.kmalloc_ok <;>
      by_cases hc : copy_fails env.copy_ok (count : Int) = true <;>
      simp [h0, hk, hc]
  · by_cases h0 : mybuff_ready mydev.mybuff = 0 <;> cases hk : env.kmalloc_ok <;>
      by_cases hc : copy_fails env.copy_ok
        (mybuff_read mydev.mybuff (int_of_size_t count)).ret = true <;>
      cases ha : mydev.async_queue <;>
      simp [h0, hk, hc, waits_append, waits]
  · by_cases h0 : mybuff_free mydev.mybuff = 0 <;> cases hk : env.kmalloc_ok <;>
      by_cases hc : copy_fails env.copy_ok (count : Int) = true <;>
      cases ha : mydev.async_queue <;>
      simp [h0, hk, hc, waits_append, waits]

/-- Witness of C9 (Scenario B): capacity 2, write "AB" returns 2 and leaves
`free() = 0`; a non-blocking write of "C" then returns `-EAGAIN`. -/
theorem nonblocking_would_block_witness :
    (mydev_write ⟨fresh 2 (fun _ => 0), false⟩ O_NONBLOCK [65, 66] 2
      ⟨false, [], true, true⟩).retval = some 2 ∧
    mybuff_free (mydev_write ⟨fresh 2 (fun _ => 0), false⟩ O_NONBLOCK [65, 66] 2
      ⟨false, [], true, true⟩).mybuff = 0 ∧
    (mydev_write ⟨(mydev_write ⟨fresh 2 (fun _ => 0), false⟩ O_NONBLOCK [65, 66] 2
      ⟨false, [], true, true⟩).mybuff, false⟩ O_NONBLOCK [67] 1
      ⟨false, [], true, true⟩).retval = some (-EAGAIN) :=
  ⟨by decide, by decide,
    (nonblocking_would_block
      ⟨(mydev_write ⟨fresh 2 (fun _ => 0), false⟩ O_NONBLOCK [65, 66] 2
        ⟨false, [], true, true⟩).mybuff, false⟩ O_NONBLOCK [67] 1
      ⟨false, [], true, true⟩ (by decide) rfl).2.1.mpr (by decide)⟩

end MyDev

namespace MyDev
open MyBuff

/-- C10: a `mydev_read` or `mydev_write` call that returns `-EAGAIN` or
`-ERESTARTSYS` has called neither `mybuff_read` nor `mybuff_write`; the ring
buffer at return is the one the other threads left during the call's waits,
and when they left it alone it is exactly the buffer at call entry (storage,
`read_idx`, `write_idx`, `size` and `status`). -/
theorem error_return_leaves_buffer (mydev : mydev_info) (f_flags : Nat) (buf : List Byte)
    (count : Nat) (env : Env) (rv : Int) (hrv : rv = -EAGAIN ∨ rv = -ERESTARTSYS) :
    ((mydev_read mydev f_flags count env).retval = some rv →
      (mydev_read mydev f_flags count env).mybuff
        = env_buff mydev.mybuff env.rounds (waits (mydev_read mydev f_flags count env).trace) ∧
      Event.mybuff_read ∉ (mydev_read mydev f_flags count env).trace ∧
      Event.mybuff_write ∉ (mydev_read mydev f_flags count env).trace ∧
      ((∀ r ∈ env.rounds, r.mybuff = mydev.mybuff) →
        (mydev_read mydev f_flags count env).mybuff = mydev.mybuff)) ∧
    ((mydev_write mydev f_flags buf count env).retval = some rv →
      (mydev_write mydev f_flags buf count env).mybuff
        = env_buff mydev.mybuff env.rounds
            (waits (mydev_write mydev f_flags buf count env).trace) ∧
      Event.mybuff_read ∉ (mydev_write mydev f_flags buf count env).trace ∧
      Event.mybuff_write ∉ (mydev_write mydev f_flags buf count env).trace ∧
      ((∀ r ∈ env.rounds, r.mybuff = mydev.mybuff) →
        (mydev_write mydev f_flags buf count env).mybuff = mydev.mybuff)) := by
  have hne : -ENOMEM ≠ rv ∧ -EFAULT ≠ rv := by
    simp only [ENOMEM, EFAULT, EAGAIN, ERESTARTSYS] at hrv ⊢; omega
  constructor
  · unfold mydev_read
    cases hl : env.lock_intr
    · simp only [Bool.false_eq_true, if_false]
      cases hW : mydev_read_wait (f_flags &&& O_NONBLOCK != 0) env.rounds mydev.mybuff
          [Event.mutex_lock true] with
      | exit retval b tr =>
        simp only
        intro h
        subst h
        obtain ⟨_, _, i3, i4, i5⟩ := read_wait_exit _ _ _ _ _ _ _ hW
        have hz : waits [Event.mutex_lock true] = 0 := by simp [waits]
        rw [hz, Nat.sub_zero] at i3
        refine ⟨i3, i4 (by simp), i5 (by simp), ?_⟩
        intro hall
        rw [i3]; exact env_buff_const _ _ _ hall
      | proceed b tr =>
        have hr := neg_errno_ne_of_nonneg _ (read_ret_nonneg b (int_of_size_t count))
        have hr2 : (mybuff_read b (int_of_size_t count)).ret ≠ rv := by
          rcases hrv with h | h <;> rw [h]
          · exact hr.1
          · exact hr.2
        cases hk : env.kmalloc_ok <;>
          by_cases hc : copy_fails env.copy_ok (mybuff_read b (int_of_size_t count)).ret = true <;>
          simp [hk, hc, hne.1, hne.2, hr2]
    · simp only [if_true]
      intro _
      refine ⟨?_, by simp, by simp, fun _ => trivial⟩
      cases env.rounds <;> simp [waits, env_buff]
  · unfold mydev_write
    cases hl : env.lock_intr
    · simp only [Bool.false_eq_true, if_false]
      cases hW : mydev_write_wait (f_flags &&& O_NONBLOCK != 0) env.rounds mydev.mybuff
          [Event.mutex_lock true] with
      | exit retval b tr =>
        simp only
        intro h
        subst h
        obtain ⟨_, _, i3, i4, i5⟩ := write_wait_exit _ _ _ _ _ _ _ hW
        have hz : waits [Event.mutex_lock true] = 0 := by simp [waits]
        rw [hz, Nat.sub_zero] at i3
        refine ⟨i3, i4 (by simp), i5 (by simp), ?_⟩
        intro hall
        rw [i3]; exact env_buff_const _ _ _ hall
      | proceed b tr =>
        have hr := neg_errno_ne_of_nonneg _
          (write_ret_nonneg b (buf.take count) (int_of_size_t count))
        have hr2 : (mybuff_write b (buf.take count) (int_of_size_t count)).ret ≠ rv := by
          rcases hrv with h | h <;> rw [h]
          · exact hr.1
          · exact hr.2
        cases hk : env.kmalloc_ok <;>
          by_cases hc : copy_fails env.copy_ok (count : Int) = true <;>
          simp [hk, hc, hne.1, hne.2, hr2]
    · simp only [if_true]
      intro _
      refine ⟨?_, by simp, by simp, fun _ => trivial⟩
      cases env.rounds <;> simp [waits, env_buff]

/-- Witness of C10: on the full buffer of capacity 2 holding "AB" a
non-blocking write returns `-EAGAIN`, and a blocking write whose wait is
interrupted returns `-ERESTARTSYS`; both leave the buffer as it was. -/
theorem error_return_leaves_buffer_witness :
    (mydev_write ⟨some ⟨[65, 66], 0, 0, 2, Status.MYBUFF_FULL⟩, false⟩ O_NONBLOCK [67] 1
      ⟨false, [], true, true⟩).retval = some (-EAGAIN) ∧
    (mydev_write ⟨some ⟨[65, 66], 0, 0, 2, Status.MYBUFF_FULL⟩, false⟩ O_NONBLOCK [67] 1
      ⟨false, [], true, true⟩).mybuff = some ⟨[65, 66], 0, 0, 2, Status.MYBUFF_FULL⟩ ∧
    (mydev_write ⟨some ⟨[65, 66], 0, 0, 2, Status.MYBUFF_FULL⟩, false⟩ 0 [67] 1
      ⟨false, [⟨true, false, some ⟨[65, 66], 0, 0, 2, Status.MYBUFF_FULL⟩⟩], true, true⟩).retval
      = some (-ERESTARTSYS) ∧
    (mydev_write ⟨some ⟨[65, 66], 0, 0, 2, Status.MYBUFF_FULL⟩, false⟩ 0 [67] 1
      ⟨false, [⟨true, false, some ⟨[65, 66], 0, 0, 2, Status.MYBUFF_FULL⟩⟩], true, true⟩).mybuff
      = some ⟨[65, 66], 0, 0, 2, Status.MYBUFF_FULL⟩ :=
  ⟨by decide,
   ((error_return_leaves_buffer ⟨some ⟨[65, 66], 0, 0, 2, Status.MYBUFF_FULL⟩, false⟩
      O_NONBLOCK [67] 1 ⟨false, [], true, true⟩ (-EAGAIN) (Or.inl rfl)).2
      (by decide)).2.2.2 (by decide),
   by decide,
   ((error_return_leaves_buffer ⟨some ⟨[65, 66], 0, 0, 2, Status.MYBUFF_FULL⟩, false⟩
      0 [67] 1 ⟨false, [⟨true, false, some ⟨[65, 66], 0, 0, 2, Status.MYBUFF_FULL⟩⟩],
        true, true⟩ (-ERESTARTSYS) (Or.inr rfl)).2
      (by decide)).2.2.2 (by decide)⟩

end MyDev

/-! ## Device: traces of the wait loops -/

namespace MyDev
open MyBuff

theorem locked_access_append (a : List Event) : ∀ (held : Bool) (b : List Event),
    locked_access held (a ++ b)
      = (locked_access held a).bind (fun h => locked_access h b) := by
  induction a with
  | nil => intro held b; rfl
  | cons e es ih =>
    intro held b
    cases e with
    | mutex_lock acquired => cases acquired <;> simp [locked_access, ih]
    | mybuff_read => cases held <;> simp [locked_access, ih]
    | mybuff_write => cases held <;> simp [locked_access, ih]
    | wait_event q => cases held <;> simp [locked_access, ih]
    | _ => simp [locked_access, ih]

theorem lock_balance_append (a : List Event) : ∀ (held : Bool) (b : List Event),
    lock_balance held (a ++ b)
      = (lock_balance held a).bind (fun h => lock_balance h b) := by
  induction a with
  | nil => intro held b; rfl
  | cons e es ih =>
    intro held b
    cases e with
    | mutex_lock acquired => cases held <;> simp [lock_balance, ih]
    | mutex_unlock => cases held <;> simp [lock_balance, ih]
    | _ => simp [lock_balance, ih]

/-- The trace of the wait loop of `mydev_read` extends the trace at entry by
lock, unlock and wait events only; replayed from the lock held, the extension
breaks neither discipline and ends with the lock held exactly when the loop
falls through. -/
theorem read_wait_run (nb : Bool) (rounds : List Round) :
    ∀ (b : Option MyBuff.mybuff) (tr : List Event),
    ∃ ext, (mydev_read_wait nb rounds b tr).trace = tr ++ ext ∧
      (∀ e ∈ ext, wait_loop_event e) ∧
      locked_access true ext = some (mydev_read_wait nb rounds b tr).proceeds ∧
      lock_balance true ext = some (mydev_read_wait nb rounds b tr).proceeds := by
  induction rounds with
  | nil =>
    intro b tr
    rw [mydev_read_wait]
    by_cases h1 : mybuff_ready b = 0
    · cases nb
      · exact ⟨[Event.mutex_unlock, Event.wait_event Queue.in_queue],
          by simp [h1, Wait.trace], by simp [wait_loop_event],
          by simp [h1, Wait.proceeds, locked_access],
          by simp [h1, Wait.proceeds, lock_balance]⟩
      · exact ⟨[Event.mutex_unlock], by simp [h1, Wait.trace], by simp [wait_loop_event],
          by simp [h1, Wait.proceeds, locked_access],
          by simp [h1, Wait.proceeds, lock_balance]⟩
    · exact ⟨[], by simp [h1, Wait.trace], by simp,
        by simp [h1, Wait.proceeds, locked_access],
        by simp [h1, Wait.proceeds, lock_balance]⟩
  | cons r rs ih =>
    intro b tr
    rw [mydev_read_wait]
    by_cases h1 : mybuff_ready b = 0
    · cases nb
      · cases hwi : r.wait_intr
        · cases hli : r.lock_intr
          · obtain ⟨ext, e1, e2, e3, e4⟩ := ih r.mybuff
              (tr ++ [Event.mutex_unlock, Event.wait_event Queue.in_queue,
                Event.mutex_lock true])
            refine ⟨[Event.mutex_unlock, Event.wait_event Queue.in_queue,
              Event.mutex_lock true] ++ ext, ?_, ?_, ?_, ?_⟩
            · simp only [h1, hwi, hli, if_true, Bool.false_eq_true, if_false, e1,
                List.append_assoc]
            · intro e he
              rcases List.mem_append.mp he with h | h
              · simp only [List.mem_cons, List.mem_singleton, List.not_mem_nil,
                  or_false] at h
                unfold wait_loop_event
                rcases h with h | h | h <;> simp [h]
              · exact e2 e h
            · simp only [h1, hwi, hli, if_true, Bool.false_eq_true, if_false]
              rw [locked_access_append, ← e3]
              simp [locked_access]
            · simp only [h1, hwi, hli, if_true, Bool.false_eq_true, if_false]
              rw [lock_balance_append, ← e4]
              simp [lock_balance]
          · exact ⟨[Event.mutex_unlock, Event.wait_event Queue.in_queue,
                Event.mutex_lock false],
              by simp [h1, hwi, hli, Wait.trace], by simp [wait_loop_event],
              by simp [h1, hwi, hli, Wait.proceeds, locked_access],
              by simp [h1, hwi, hli, Wait.proceeds, lock_balance]⟩
        · exact ⟨[Event.mutex_unlock, Event.wait_event Queue.in_queue],
            by simp [h1, hwi, Wait.trace], by simp [wait_loop_event],
            by simp [h1, hwi, Wait.proceeds, locked_access],
            by simp [h1, hwi, Wait.proceeds, lock_balance]⟩
      · exact ⟨[Event.mutex_unlock], by simp [h1, Wait.trace], by simp [wait_loop_event],
          by simp [h1, Wait.proceeds, locked_access],
          by simp [h1, Wait.proceeds, lock_balance]⟩
    · exact ⟨[], by simp [h1, Wait.trace], by simp,
        by simp [h1, Wait.proceeds, locked_access],
        by simp [h1, Wait.proceeds, lock_balance]⟩

/-- When the wait loop of `mydev_read` falls through, the buffer under the lock
is the one the environment left and the loop condition is false on it. -/
theorem read_wait_proceed (nb : Bool) (rounds : List Round) :
    ∀ (b : Option MyBuff.mybuff) (tr : List Event)
      (b1 : Option MyBuff.mybuff) (tr1 : List Event),
    mydev_read_wait nb rounds b tr = Wait.proceed b1 tr1 →
    mybuff_ready b1 ≠ 0 ∧ waits tr ≤ waits tr1 ∧
    b1 = env_buff b rounds (waits tr1 - waits tr) := by
  induction rounds with
  | nil =>
    intro b tr b1 tr1 h
    rw [mydev_read_wait] at h
    by_cases h1 : mybuff_ready b = 0
    · cases nb <;> simp [h1] at h
    · simp only [h1, if_false, Wait.proceed.injEq] at h
      obtain ⟨h2, h3⟩ := h
      subst h2 h3
      simp [h1, env_buff]
  | cons r rs ih =>
    intro b tr b1 tr1 h
    rw [mydev_read_wait] at h
    by_cases h1 : mybuff_ready b = 0
    · cases nb
      · cases hwi : r.wait_intr
        · cases hli : r.lock_intr
          · simp only [h1, hwi, hli, if_true, Bool.false_eq_true, if_false] at h
            obtain ⟨i1, i2, i3⟩ := ih _ _ _ _ h
            have hw : waits (tr ++ [Event.mutex_unlock, Event.wait_event Queue.in_queue,
                Event.mutex_lock true]) = waits tr + 1 := by
              simp [waits_append, waits]
            rw [hw] at i2 i3
            refine ⟨i1, by omega, ?_⟩
            rw [i3, show waits tr1 - waits tr = (waits tr1 - (waits tr + 1)) + 1 by omega]
            rfl
          · simp [h1, hwi, hli] at h
        · simp [h1, hwi] at h
      · simp [h1] at h
    · simp only [h1, if_false, Wait.proceed.injEq] at h
      obtain ⟨h2, h3⟩ := h
      subst h2 h3
      simp [h1, env_buff]

/-- The trace of the wait loop of `mydev_write` extends the trace at entry by
lock, unlock and wait events only; replayed from the lock held, the extension
breaks neither discipline and ends with the lock held exactly when the loop
falls through. -/
theorem write_wait_run (nb : Bool) (rounds : List Round) :
    ∀ (b : Option MyBuff.mybuff) (tr : List Event),
    ∃ ext, (mydev_write_wait nb rounds b tr).trace = tr ++ ext ∧
      (∀ e ∈ ext, wait_loop_event e) ∧
      locked_access true ext = some (mydev_write_wait nb rounds b tr).proceeds ∧
      lock_balance true ext = some (mydev_write_wait nb rounds b tr).proceeds := by
  induction rounds with
  | nil =>
    intro b tr
    rw [mydev_write_wait]
    by_cases h1 : mybuff_free b = 0
    · cases nb
      · exact ⟨[Event.mutex_unlock, Event.wait_event Queue.out_queue],
          by simp [h1, Wait.trace], by simp [wait_loop_event],
          by simp [h1, Wait.proceeds, locked_access],
          by simp [h1, Wait.proceeds, lock_balance]⟩
      · exact ⟨[Event.mutex_unlock], by simp [h1, Wait.trace], by simp [wait_loop_event],
          by simp [h1, Wait.proceeds, locked_access],
          by simp [h1, Wait.proceeds, lock_balance]⟩
    · exact ⟨[], by simp [h1, Wait.trace], by simp,
        by simp [h1, Wait.proceeds, locked_access],
        by simp [h1, Wait.proceeds, lock_balance]⟩
  | cons r rs ih =>
    intro b tr
    rw [mydev_write_wait]
    by_cases h1 : mybuff_free b = 0
    · cases nb
      · cases hwi : r.wait_intr
        · cases hli : r.lock_intr
          · obtain ⟨ext, e1, e2, e3, e4⟩ := ih r.mybuff
              (tr ++ [Event.mutex_unlock, Event.wait_event Queue.out_queue,
                Event.mutex_lock true])
            refine ⟨[Event.mutex_unlock, Event.wait_event Queue.out_queue,
              Event.mutex_lock true] ++ ext, ?_, ?_, ?_, ?_⟩
            · simp only [h1, hwi, hli, if_true, Bool.false_eq_true, if_false, e1,
                List.append_assoc]
            · intro e he
              rcases List.mem_append.mp he with h | h
              · simp only [List.mem_cons, List.mem_singleton, List.not_mem_nil,
                  or_false] at h
                unfold wait_loop_event
                rcases h with h | h | h <;> simp [h]
              · exact e2 e h
            · simp only [h1, hwi, hli, if_true, Bool.false_eq_true, if_false]
              rw [locked_access_append, ← e3]
              simp [locked_access]
            · simp only [h1, hwi, hli, if_true, Bool.false_eq_true, if_false]
              rw [lock_balance_append, ← e4]
              simp [lock_balance]
          · exact ⟨[Event.mutex_unlock, Event.wait_event Queue.out_queue,
                Event.mutex_lock false],
              by simp [h1, hwi, hli, Wait.trace], by simp [wait_loop_event],
              by simp [h1, hwi, hli, Wait.proceeds, locked_access],
              by simp [h1, hwi, hli, Wait.proceeds, lock_balance]⟩
        · exact ⟨[Event.mutex_unlock, Event.wait_event Queue.out_queue],
            by simp [h1, hwi, Wait.trace], by simp [wait_loop_event],
            by simp [h1, hwi, Wait.proceeds, locked_access],
            by simp [h1, hwi, Wait.proceeds, lock_balance]⟩
      · exact ⟨[Event.mutex_unlock], by simp [h1, Wait.trace], by simp [wait_loop_event],
          by simp [h1, Wait.proceeds, locked_access],
          by simp [h1, Wait.proceeds, lock_balance]⟩
    · exact ⟨[], by simp [h1, Wait.trace], by simp,
        by simp [h1, Wait.proceeds, locked_access],
        by simp [h1, Wait.proceeds, lock_balance]⟩

/-- When the wait loop of `mydev_write` falls through, the buffer under the lock
is the one the environment left and the loop condition is false on it. -/
theorem write_wait_proceed (nb : Bool) (rounds : List Round) :
    ∀ (b : Option MyBuff.mybuff) (tr : List Event)
      (b1 : Option MyBuff.mybuff) (tr1 : List Event),
    mydev_write_wait nb rounds b tr = Wait.proceed b1 tr1 →
    mybuff_free b1 ≠ 0 ∧ waits tr ≤ waits tr1 ∧
    b1 = env_buff b rounds (waits tr1 - waits tr) := by
  induction rounds with
  | nil =>
    intro b tr b1 tr1 h
    rw [mydev_write_wait] at h
    by_cases h1 : mybuff_free b = 0
    · cases nb <;> simp [h1] at h
    · simp only [h1, if_false, Wait.proceed.injEq] at h
      obtain ⟨h2, h3⟩ := h
      subst h2 h3
      simp [h1, env_buff]
  | cons r rs ih =>
    intro b tr b1 tr1 h
    rw [mydev_write_wait] at h
    by_cases h1 : mybuff_free b = 0
    · cases nb
      · cases hwi : r.wait_intr
        · cases hli : r.lock_intr
          · simp only [h1, hwi, hli, if_true, Bool.false_eq_true, if_false] at h
            obtain ⟨i1, i2, i3⟩ := ih _ _ _ _ h
            have hw : waits (tr ++ [Event.mutex_unlock, Event.wait_event Queue.out_queue,
                Event.mutex_lock true]) = waits tr + 1 := by
              simp [waits_append, waits]
            rw [hw] at i2 i3
            refine ⟨i1, by omega, ?_⟩
            rw [i3, show waits tr1 - waits tr = (waits tr1 - (waits tr + 1)) + 1 by omega]
            rfl
          · simp [h1, hwi, hli] at h
        · simp [h1, hwi] at h
      · simp [h1] at h
    · simp only [h1, if_false, Wait.proceed.injEq] at h
      obtain ⟨h2, h3⟩ := h
      subst h2 h3
      simp [h1, env_buff]

theorem env_buff_WFo (b : Option MyBuff.mybuff) (rounds : List Round) :
    ∀ k, WFo b → (∀ r ∈ rounds, WFo r.mybuff) → WFo (env_buff b rounds k) := by
  induction rounds generalizing b with
  | nil => intro k hb _; cases k <;> exact hb
  | cons r rs ih =>
    intro k hb h
    cases k with
    | zero => exact hb
    | succ k =>
      exact ih r.mybuff k (h r (List.mem_cons_self _ _))
        (fun r1 h1 => h r1 (List.mem_cons_of_mem _ h1))

end MyDev

/-! ## Poll, ioctl and module initialisation: stated properties -/

namespace MyDev
open MyBuff

theorem ready_free_nonneg (b : Option MyBuff.mybuff) (h : ∀ x, b = some x → Reachable x) :
    0 ≤ mybuff_ready b ∧ 0 ≤ mybuff_free b := by
  cases b with
  | none => simp [mybuff_ready, mybuff_free]
  | some x =>
    have hb := free_bounds x (h x rfl).wf
    rw [ready_eq]
    omega

/-- C11: when the lock is acquired, the mask `mydev_poll` returns has the
readable bits `POLLIN|POLLRDNORM` set if and only if `ready() > 0` and the
writable bits `POLLOUT|POLLWRNORM` set if and only if `free() > 0` (each pair
is set or clear as a whole), and the ring buffer is left unchanged; on a
freshly created buffer of capacity `>= 1` it reports not readable, writable. -/
theorem poll_reports_readiness (mydev : mydev_info) (size : Int) (garbage : Nat → Byte)
    (aq : Bool) (hr : ∀ b, mydev.mybuff = some b → Reachable b) (hs : 1 ≤ size) :
    ((mydev_poll mydev false).retval &&& (POLLIN ||| POLLRDNORM) = POLLIN ||| POLLRDNORM
      ↔ 0 < mybuff_ready mydev.mybuff) ∧
    ((mydev_poll mydev false).retval &&& (POLLIN ||| POLLRDNORM) = 0
      ↔ ¬ 0 < mybuff_ready mydev.mybuff) ∧
    ((mydev_poll mydev false).retval &&& (POLLOUT ||| POLLWRNORM) = POLLOUT ||| POLLWRNORM
      ↔ 0 < mybuff_free mydev.mybuff) ∧
    ((mydev_poll mydev false).retval &&& (POLLOUT ||| POLLWRNORM) = 0
      ↔ ¬ 0 < mybuff_free mydev.mybuff) ∧
    (mydev_poll mydev false).mybuff = mydev.mybuff ∧
    Event.mybuff_read ∉ (mydev_poll mydev false).trace ∧
    Event.mybuff_write ∉ (mydev_poll mydev false).trace ∧
    (mydev_poll ⟨fresh size garbage, aq⟩ false).retval = POLLOUT ||| POLLWRNORM := by
  have h0 := ready_free_nonneg mydev.mybuff hr
  obtain ⟨b, hb, hrb, hsz, hst⟩ := fresh_some size garbage (by omega)
  have hfr : mybuff_ready (some b) = 0 ∧ mybuff_free (some b) ≠ 0 := by
    have := (free_bounds b hrb.wf).2.2.2.mpr hst
    rw [ready_eq]; omega
  refine ⟨?_, ?_, ?_, ?_, rfl, by simp [mydev_poll], by simp [mydev_poll], ?_⟩
  · by_cases h1 : mybuff_ready mydev.mybuff = 0 <;>
      by_cases h2 : mybuff_free mydev.mybuff = 0 <;>
      simp +decide [mydev_poll, h1, h2, POLLIN, POLLRDNORM, POLLOUT, POLLWRNORM] <;> omega
  · by_cases h1 : mybuff_ready mydev.mybuff = 0 <;>
      by_cases h2 : mybuff_free mydev.mybuff = 0 <;>
      simp +decide [mydev_poll, h1, h2, POLLIN, POLLRDNORM, POLLOUT, POLLWRNORM] <;> omega
  · by_cases h1 : mybuff_ready mydev.mybuff = 0 <;>
      by_cases h2 : mybuff_free mydev.mybuff = 0 <;>
      simp +decide [mydev_poll, h1, h2, POLLIN, POLLRDNORM, POLLOUT, POLLWRNORM] <;> omega
  · by_cases h1 : mybuff_ready mydev.mybuff = 0 <;>
      by_cases h2 : mybuff_free mydev.mybuff = 0 <;>
      simp +decide [mydev_poll, h1, h2, POLLIN, POLLRDNORM, POLLOUT, POLLWRNORM] <;> omega
  · simp [mydev_poll, hb, hfr.1, hfr.2]

/-- Witness of C11 (Scenario D and a buffer holding data): a fresh buffer of
capacity 4 polls writable only; the full buffer of capacity 2 polls readable
only. -/
theorem poll_reports_readiness_witness :
    (mydev_poll ⟨fresh 4 (fun _ => 0), false⟩ false).retval = POLLOUT ||| POLLWRNORM ∧
    (mydev_poll ⟨some ⟨[65, 66], 0, 0, 2, Status.MYBUFF_FULL⟩, false⟩ false).retval
      = POLLIN ||| POLLRDNORM ∧
    ((mydev_poll ⟨some ⟨[65, 66], 0, 0, 2, Status.MYBUFF_FULL⟩, false⟩ false).retval
        &&& (POLLIN ||| POLLRDNORM) = POLLIN ||| POLLRDNORM
      ↔ 0 < mybuff_ready (some ⟨[65, 66], 0, 0, 2, Status.MYBUFF_FULL⟩)) :=
  ⟨by decide, by decide,
    (poll_reports_readiness ⟨some ⟨[65, 66], 0, 0, 2, Status.MYBUFF_FULL⟩, false⟩ 4
      (fun _ => 0) false
      (fun b hb => by
        simp only [Option.some.injEq] at hb
        subst hb
        exact Reachable.write ⟨[0, 0], 0, 0, 2, Status.MYBUFF_EMPTY⟩ [65, 66] 2 _
          (Reachable.create none 2 true (some (fun _ => 0)) _ (by decide)) (by decide))
      (by decide)).1⟩

/-- C16: `mydev_ioctl` with `SIZE_GET`, `FREE_GET`, `READY_GET` reports
`mybuff_size`, `mybuff_free`, `mybuff_ready` of the current state; every
`mydev_ioctl` call leaves the ring buffer unchanged and calls neither
`mybuff_read` nor `mybuff_write`; so a query repeated with no intervening
read, write or clear behaves as on the original state and returns the same
value. -/
theorem ioctl_query_idempotent (mydev : mydev_info) :
    (mydev_ioctl mydev MYDEV_IOCTL_SIZE_GET false true).retval = 0 ∧
    (mydev_ioctl mydev MYDEV_IOCTL_SIZE_GET false true).arg
      = some (mybuff_size mydev.mybuff) ∧
    (mydev_ioctl mydev MYDEV_IOCTL_FREE_GET false true).retval = 0 ∧
    (mydev_ioctl mydev MYDEV_IOCTL_FREE_GET false true).arg
      = some (mybuff_free mydev.mybuff) ∧
    (mydev_ioctl mydev MYDEV_IOCTL_READY_GET false true).retval = 0 ∧
    (mydev_ioctl mydev MYDEV_IOCTL_READY_GET false true).arg
      = some (mybuff_ready mydev.mybuff) ∧
    (∀ cmd l p, (mydev_ioctl mydev cmd l p).mybuff = mydev.mybuff ∧
      Event.mybuff_read ∉ (mydev_ioctl mydev cmd l p).trace ∧
      Event.mybuff_write ∉ (mydev_ioctl mydev cmd l p).trace) ∧
    (∀ cmd l1 p1 l2 p2,
      mydev_ioctl ⟨(mydev_ioctl mydev cmd l1 p1).mybuff, mydev.async_queue⟩ cmd l2 p2
        = mydev_ioctl mydev cmd l2 p2) := by
  have d1 : MYDEV_IOCTL_FREE_GET ≠ MYDEV_IOCTL_SIZE_GET := by decide
  have d2 : MYDEV_IOCTL_READY_GET ≠ MYDEV_IOCTL_SIZE_GET := by decide
  have d3 : MYDEV_IOCTL_READY_GET ≠ MYDEV_IOCTL_FREE_GET := by decide
  have hm : ∀ cmd l p, (mydev_ioctl mydev cmd l p).mybuff = mydev.mybuff := by
    intro cmd l p
    unfold mydev_ioctl ioctl_put
    cases l <;> cases p <;> simp <;> split_ifs <;> rfl
  refine ⟨?_, ?_, ?_, ?_, ?_, ?_, ?_, ?_⟩
  · simp [mydev_ioctl, ioctl_put]
  · simp [mydev_ioctl, ioctl_put]
  · simp [mydev_ioctl, ioctl_put, d1]
  · simp [mydev_ioctl, ioctl_put, d1]
  · simp [mydev_ioctl, ioctl_put, d2, d3]
  · simp [mydev_ioctl, ioctl_put, d2, d3]
  · intro cmd l p
    refine ⟨hm cmd l p, ?_, ?_⟩ <;>
    · unfold mydev_ioctl ioctl_put
      cases l <;> cases p <;> simp <;> split_ifs <;> simp
  · intro cmd l1 p1 l2 p2
    rw [hm]

end MyDev

namespace MyBuff
open Status

/-- C17 (well-formedness): `mybuff_create` with capacity `> 0` establishes, and
each of `mybuff_read`, `mybuff_write`, `mybuff_clear` preserves, `WF`; and on a
well-formed buffer both indices are in `[0, capacity)` and inside the storage,
status Empty or Full occurs only with `read_idx == write_idx`, and status
HasData exactly when `read_idx != write_idx`. -/
theorem wellformed_invariant :
    (∀ old size a g b, mybuff_create old size a g = (0, some b) → WF b) ∧
    (∀ old size g, 0 < size →
      ∃ b, mybuff_create old size true (some g) = (0, some b) ∧ WF b) ∧
    (∀ b count, WF b → ∃ b1, (mybuff_read (some b) count).mybuff = some b1 ∧ WF b1) ∧
    (∀ b buff count, WF b →
      ∃ b1, (mybuff_write (some b) buff count).mybuff = some b1 ∧ WF b1) ∧
    (∀ b, WF b → ∃ b1, mybuff_clear (some b) = some b1 ∧ WF b1) ∧
    (∀ b, WF b →
      0 ≤ b.read_idx ∧ b.read_idx < b.size ∧ 0 ≤ b.write_idx ∧ b.write_idx < b.size ∧
      b.read_idx.toNat < b.buff.length ∧ b.write_idx.toNat < b.buff.length ∧
      (b.status = MYBUFF_EMPTY → b.read_idx = b.write_idx) ∧
      (b.status = MYBUFF_FULL → b.read_idx = b.write_idx) ∧
      (b.status = MYBUFF_DATA ↔ b.read_idx ≠ b.write_idx)) := by
  refine ⟨?_, ?_, ?_, ?_, ?_, ?_⟩
  · intro old size a g b h
    exact (WF_create old size a g b h).1
  · intro old size g h
    have hn : ¬ size ≤ 0 := by omega
    have hc : mybuff_create old size true (some g)
        = (0, some { buff := (List.range size.toNat).map g
                     write_idx := 0, read_idx := 0, size := size
                     status := MYBUFF_EMPTY }) := by
      simp [mybuff_create, hn]
    exact ⟨_, hc, (WF_create _ _ _ _ _ hc).1⟩
  · intro b count h
    obtain ⟨b1, e1, w1, _⟩ := read_spec b h count
    exact ⟨b1, e1, w1⟩
  · intro b buff count h
    obtain ⟨b1, e1, w1, _⟩ := write_spec b h buff count
    exact ⟨b1, e1, w1⟩
  · intro b h
    exact ⟨_, rfl, WF_clear b h⟩
  · intro b h
    obtain ⟨h1, h2, h3, h4, h5, h6, h7⟩ := h
    refine ⟨h3, h4, h5, h6, by omega, by omega, ?_, ?_, h7⟩
    · intro hs
      by_contra hne
      rw [h7.mpr hne] at hs
      exact absurd hs (by decide)
    · intro hs
      by_contra hne
      rw [h7.mpr hne] at hs
      exact absurd hs (by decide)

/-- Witness of C17: the buffer of capacity 2 after write "AB", read(1), write
"C" (indices wrapped around, status Full) is well-formed. -/
theorem wellformed_invariant_witness :
    (mybuff_write (mybuff_read (mybuff_write (fresh 2 (fun _ => 0)) [65, 66] 2).mybuff
        1).mybuff [67] 1).mybuff = some ⟨[67, 66], 1, 1, 2, MYBUFF_FULL⟩ ∧
    WF ⟨[67, 66], 1, 1, 2, MYBUFF_FULL⟩ ∧
    (∃ b1, (mybuff_write (some ⟨[65, 66], 0, 1, 2, MYBUFF_DATA⟩) [67] 1).mybuff = some b1 ∧
      WF b1) :=
  ⟨by decide, by decide,
    wellformed_invariant.2.2.2.1 ⟨[65, 66], 0, 1, 2, MYBUFF_DATA⟩ [67] 1 (by decide)⟩

end MyBuff

namespace MyDev
open MyBuff

theorem init_buffers_no_delete (size : Int) (alloc : Nat → Bool × Option (Nat → Byte))
    (j : Nat) (n : Nat) : ∀ (i : Nat) (devs : List mydev_info) (tr : List InitEvent),
    InitEvent.mybuff_delete j ∉ tr →
    InitEvent.mybuff_delete j ∉ (init_buffers size alloc n i devs tr).2.2 := by
  induction n with
  | zero => intro i devs tr h; simpa [init_buffers] using h
  | succ n ih =>
    intro i devs tr h
    rw [init_buffers]
    split_ifs
    · simpa using h
    · exact ih _ _ _ (by simpa using h)

theorem init_cdevs_no_delete (ok : Nat → Bool) (j : Nat) (n : Nat) :
    ∀ (i : Nat) (tr : List InitEvent),
    InitEvent.mybuff_delete j ∉ tr →
    InitEvent.mybuff_delete j ∉ (init_cdevs ok n i tr).2 := by
  induction n with
  | zero => intro i tr h; simpa [init_cdevs] using h
  | succ n ih =>
    intro i tr h
    rw [init_cdevs]
    split_ifs
    · simpa using h
    · exact ih _ _ (by simpa using h)

/-- C12: `mydev_init` returns `-EINVAL` and does nothing when
`mydev_no = 0`, `mydev_no > 64` or `mydev_size > 131072`; but for
`mydev_size = 0` with `mydev_no` in `1..64` it does not: the size passes the
parameter check and the call returns `-ENODEV` or `-ENOMEM`, the latter (from
the failed `mybuff_create`) whenever the region and the array are obtained. -/
theorem init_zero_size_not_einval (mydev_no : Nat) (env : InitEnv)
    (h1 : 1 ≤ mydev_no) (h2 : mydev_no ≤ 64) :
    (mydev_init mydev_no 0 env).retval ≠ -EINVAL ∧
    ((mydev_init mydev_no 0 env).retval = -ENODEV ∨
      (mydev_init mydev_no 0 env).retval = -ENOMEM) ∧
    (env.region_ok = true → env.kzalloc_ok = true →
      (mydev_init mydev_no 0 env).retval = -ENOMEM ∧
      (mydev_init mydev_no 0 env).trace
        = [InitEvent.chrdev_region true, InitEvent.kzalloc true,
           InitEvent.mybuff_create 0 false, InitEvent.kfree_mydev,
           InitEvent.unregister_chrdev_region]) ∧
    (∀ no size e, no = 0 ∨ no > 64 ∨ size > 131072 →
      (mydev_init no size e).retval = -EINVAL ∧ (mydev_init no size e).trace = [] ∧
      (mydev_init no size e).mydev = none) := by
  have hno : ¬ (mydev_no = 0 ∨ mydev_no > MYDEV_MAX_NUM) := by
    simp only [MYDEV_MAX_NUM]; omega
  have hsz : ¬ (0 > MYDEV_MAX_SIZE) := by simp
  obtain ⟨n, hn⟩ : ∃ n, mydev_no = n + 1 := ⟨mydev_no - 1, by omega⟩
  have hb : ∀ devs tr, init_buffers ((0 : Nat) : Int) env.alloc mydev_no 0 devs tr
      = (false, devs, tr ++ [InitEvent.mybuff_create 0 false]) := by
    intro devs tr
    rw [hn, init_buffers]
    simp [mybuff_create]
  have hv : (mydev_init mydev_no 0 env).retval = -ENODEV ∨
      ((mydev_init mydev_no 0 env).retval = -ENOMEM ∧
        (env.region_ok = true → env.kzalloc_ok = true →
          (mydev_init mydev_no 0 env).trace
            = [InitEvent.chrdev_region true, InitEvent.kzalloc true,
               InitEvent.mybuff_create 0 false, InitEvent.kfree_mydev,
               InitEvent.unregister_chrdev_region])) := by
    unfold mydev_init
    simp only [hno, hsz, if_false, hb]
    cases env.region_ok <;> cases env.kzalloc_ok <;> simp
  refine ⟨?_, ?_, ?_, ?_⟩
  · rcases hv with h | ⟨h, _⟩ <;> rw [h] <;> simp only [ENODEV, ENOMEM, EINVAL] <;> omega
  · rcases hv with h | ⟨h, _⟩
    · exact Or.inl h
    · exact Or.inr h
  · intro hr hk
    rcases hv with h | ⟨h, ht⟩
    · exfalso
      revert h
      unfold mydev_init
      simp only [hno, hsz, if_false, hb, hr, hk]
      simp [ENOMEM, ENODEV]
    · exact ⟨h, ht hr hk⟩
  · intro no size e h
    unfold mydev_init
    by_cases hc : no = 0 ∨ no > MYDEV_MAX_NUM
    · simp [hc]
    · have hs : size > MYDEV_MAX_SIZE := by
        simp only [MYDEV_MAX_NUM, MYDEV_MAX_SIZE] at hc ⊢; omega
      simp [hc, hs]

/-- Failing input of C12: one device of buffer size 0, every kernel resource
available: `mydev_init` returns `-ENOMEM`, not `-EINVAL`. -/
theorem init_zero_size_not_einval_witness :
    (mydev_init 1 0 ⟨true, true, fun _ => (true, some (fun _ => 0)), fun _ => true⟩).retval
      = -ENOMEM ∧
    (mydev_init 1 0 ⟨true, true, fun _ => (true, some (fun _ => 0)), fun _ => true⟩).retval
      ≠ -EINVAL :=
  ⟨by decide,
    (init_zero_size_not_einval 1
      ⟨true, true, fun _ => (true, some (fun _ => 0)), fun _ => true⟩
      (by decide) (by decide)).1⟩

/-- C13: `mydev_init` never applies `mybuff_delete`.  In Scenario E (a batch of
3 whose 3rd `mybuff_create` fails) it returns `-ENOMEM` after freeing only the
array, and the ring buffers 0 and 1 stay allocated; `mydev_exit` after a
successful initialisation of 3 devices does delete every ring buffer. -/
theorem init_failure_leaks_buffers :
    (∀ mydev_no mydev_size env j,
      InitEvent.mybuff_delete j ∉ (mydev_init mydev_no mydev_size env).trace) ∧
    (mydev_init 3 16 ⟨true, true,
        fun i => if i = 2 then (false, none) else (true, some (fun _ => 0)),
        fun _ => true⟩).retval = -ENOMEM ∧
    (mydev_init 3 16 ⟨true, true,
        fun i => if i = 2 then (false, none) else (true, some (fun _ => 0)),
        fun _ => true⟩).trace
      = [InitEvent.chrdev_region true, InitEvent.kzalloc true,
         InitEvent.mybuff_create 0 true, InitEvent.mybuff_create 1 true,
         InitEvent.mybuff_create 2 false, InitEvent.kfree_mydev,
         InitEvent.unregister_chrdev_region] ∧
    live_buffers (mydev_init 3 16 ⟨true, true,
        fun i => if i = 2 then (false, none) else (true, some (fun _ => 0)),
        fun _ => true⟩).trace = [0, 1] ∧
    live_buffers ((mydev_init 3 16 ⟨true, true, fun _ => (true, some (fun _ => 0)),
        fun _ => true⟩).trace ++ mydev_exit 3) = [] := by
  refine ⟨?_, by decide, by decide, by decide, by decide⟩
  intro mydev_no mydev_size env j
  unfold mydev_init
  split_ifs
  · simp
  · simp
  · simp
  · simp
  · have hb := init_buffers_no_delete mydev_size env.alloc j mydev_no 0 []
      [InitEvent.chrdev_region true, InitEvent.kzalloc true] (by simp)
    rcases hB : init_buffers mydev_size env.alloc mydev_no 0 []
      [InitEvent.chrdev_region true, InitEvent.kzalloc true] with ⟨ok, devs, tr⟩
    rw [hB] at hb
    cases ok
    · simpa using hb
    · have hc := init_cdevs_no_delete env.cdev_add_ok j mydev_no 0 tr hb
      rcases hC : init_cdevs env.cdev_add_ok mydev_no 0 tr with ⟨ok1, tr1⟩
      rw [hC] at hc
      simp only [hC]
      cases ok1
      · simpa using hc
      · simpa using hc

end MyDev

/-! ## Locking: stated properties -/

namespace MyDev
open MyBuff

/-- C18: on every execution path of `mydev_read` and `mydev_write` (every
outcome of the lock acquisitions, the waits, `kmalloc` and the user copy) the
call of `mybuff_read` / `mybuff_write` happens with the mutex held and every
blocking wait happens with the mutex not held; the replay of the trace finds
no violation and ends with the mutex released. -/
theorem buffer_access_locked (mydev : mydev_info) (f_flags : Nat) (buf : List Byte)
    (count : Nat) (env : Env) :
    locked_access false (mydev_read mydev f_flags count env).trace = some false ∧
    locked_access false (mydev_write mydev f_flags buf count env).trace = some false := by
  constructor
  · unfold mydev_read
    cases hl : env.lock_intr
    · simp only [Bool.false_eq_true, if_false]
      obtain ⟨ext, e1, _, e3, e4⟩ := read_wait_run (f_flags &&& O_NONBLOCK != 0) env.rounds
        mydev.mybuff [Event.mutex_lock true]
      cases hW : mydev_read_wait (f_flags &&& O_NONBLOCK != 0) env.rounds mydev.mybuff
          [Event.mutex_lock true] with
      | exit rv b tr =>
        rw [hW] at e1 e3 e4
        simp only [Wait.trace, Wait.proceeds] at e1 e3 e4
        simp [e1, locked_access_append, locked_access, e3]
      | proceed b tr =>
        rw [hW] at e1 e3 e4
        simp only [Wait.trace, Wait.proceeds] at e1 e3 e4
        subst e1
        cases hk : env.kmalloc_ok <;>
          by_cases hc : copy_fails env.copy_ok (mybuff_read b (int_of_size_t count)).ret = true <;>
          cases ha : mydev.async_queue <;>
          simp [hk, hc, locked_access_append, locked_access, e3]
    · simp [locked_access]
  · unfold mydev_write
    cases hl : env.lock_intr
    · simp only [Bool.false_eq_true, if_false]
      obtain ⟨ext, e1, _, e3, e4⟩ := write_wait_run (f_flags &&& O_NONBLOCK != 0) env.rounds
        mydev.mybuff [Event.mutex_lock true]
      cases hW : mydev_write_wait (f_flags &&& O_NONBLOCK != 0) env.rounds mydev.mybuff
          [Event.mutex_lock true] with
      | exit rv b tr =>
        rw [hW] at e1 e3 e4
        simp only [Wait.trace, Wait.proceeds] at e1 e3 e4
        simp [e1, locked_access_append, locked_access, e3]
      | proceed b tr =>
        rw [hW] at e1 e3 e4
        simp only [Wait.trace, Wait.proceeds] at e1 e3 e4
        subst e1
        cases hk : env.kmalloc_ok <;>
          by_cases hc : copy_fails env.copy_ok (count : Int) = true <;>
          cases ha : mydev.async_queue <;>
          simp [hk, hc, locked_access_append, locked_access, e3]
    · simp [locked_access]

/-- C19 (lock balance): on every execution path of `mydev_read`, `mydev_write`,
`mydev_poll` and `mydev_ioctl`, every error exit included, the mutex is never
unlocked while not held, never locked while held, and is not held when the
call returns (or stays suspended in its wait). -/
theorem lock_balanced (mydev : mydev_info) (f_flags : Nat) (buf : List Byte)
    (count : Nat) (env : Env) (cmd : Nat) (lock_intr put_user_ok : Bool) :
    lock_balance false (mydev_read mydev f_flags count env).trace = some false ∧
    lock_balance false (mydev_write mydev f_flags buf count env).trace = some false ∧
    lock_balance false (mydev_poll mydev lock_intr).trace = some false ∧
    lock_balance false (mydev_ioctl mydev cmd lock_intr put_user_ok).trace = some false := by
  refine ⟨?_, ?_, ?_, ?_⟩
  · unfold mydev_read
    cases hl : env.lock_intr
    · simp only [Bool.false_eq_true, if_false]
      obtain ⟨ext, e1, _, e3, e4⟩ := read_wait_run (f_flags &&& O_NONBLOCK != 0) env.rounds
        mydev.mybuff [Event.mutex_lock true]
      cases hW : mydev_read_wait (f_flags &&& O_NONBLOCK != 0) env.rounds mydev.mybuff
          [Event.mutex_lock true] with
      | exit rv b tr =>
        rw [hW] at e1 e3 e4
        simp only [Wait.trace, Wait.proceeds] at e1 e3 e4
        simp [e1, lock_balance_append, lock_balance, e4]
      | proceed b tr =>
        rw [hW] at e1 e3 e4
        simp only [Wait.trace, Wait.proceeds] at e1 e3 e4
        subst e1
        cases hk : env.kmalloc_ok <;>
          by_cases hc : copy_fails env.copy_ok (mybuff_read b (int_of_size_t count)).ret = true <;>
          cases ha : mydev.async_queue <;>
          simp [hk, hc, lock_balance_append, lock_balance, e4]
    · simp [lock_balance]
  · unfold mydev_write
    cases hl : env.lock_intr
    · simp only [Bool.false_eq_true, if_false]
      obtain ⟨ext, e1, _, e3, e4⟩ := write_wait_run (f_flags &&& O_NONBLOCK != 0) env.rounds
        mydev.mybuff [Event.mutex_lock true]
      cases hW : mydev_write_wait (f_flags &&& O_NONBLOCK != 0) env.rounds mydev.mybuff
          [Event.mutex_lock true] with
      | exit rv b tr =>
        rw [hW] at e1 e3 e4
        simp only [Wait.trace, Wait.proceeds] at e1 e3 e4
        simp [e1, lock_balance_append, lock_balance, e4]
      | proceed b tr =>
        rw [hW] at e1 e3 e4
        simp only [Wait.trace, Wait.proceeds] at e1 e3 e4
        subst e1
        cases hk : env.kmalloc_ok <;>
          by_cases hc : copy_fails env.copy_ok (count : Int) = true <;>
          cases ha : mydev.async_queue <;>
          simp [hk, hc, lock_balance_append, lock_balance, e4]
    · simp [lock_balance]
  · unfold mydev_poll
    cases lock_intr <;> simp [lock_balance]
  · unfold mydev_ioctl ioctl_put
    cases lock_intr <;> cases put_user_ok <;> simp <;> (try split_ifs) <;>
      simp [lock_balance]

end MyDev

/-! ## Faults and wakeups: stated properties -/

namespace MyDev
open MyBuff

theorem read_under_lock (b : Option MyBuff.mybuff) (hw : WFo b) (hr : mybuff_ready b ≠ 0)
    (c : Int) :
    WFo (mybuff_read b c).mybuff ∧
    contents_of (mybuff_read b c).mybuff = (contents_of b).drop c.toNat ∧
    (mybuff_read b c).ret = ((min c.toNat (contents_of b).length : Nat) : Int) ∧
    0 < (contents_of b).length := by
  cases b with
  | none => simp [mybuff_ready] at hr
  | some x =>
    have hx : WF x := hw
    obtain ⟨x1, e1, w1, _, _, _, e2, e3, e4⟩ := read_spec x hx c
    have hb := free_bounds x hx
    have hl := contents_length x
    rw [ready_eq] at hr hl
    refine ⟨?_, ?_, ?_, ?_⟩
    · rw [e1]; exact w1
    · rw [e1]; exact e4
    · rw [e3, e2, List.length_take]; rfl
    · show 0 < (contents x).length
      omega

theorem write_under_lock (b : Option MyBuff.mybuff) (hw : WFo b) (hf : mybuff_free b ≠ 0)
    (data : List Byte) (c : Int) (hc : 0 < c) :
    1 ≤ (mybuff_write b data c).ret := by
  cases b with
  | none => simp [mybuff_free] at hf
  | some x =>
    have hx : WF x := hw
    obtain ⟨x1, _, _, _, _, e2, _⟩ := write_spec x hx data c
    have hb := free_bounds x hx
    rw [e2]
    omega

theorem wait_loop_no_signal (ext : List Event) (h : ∀ e ∈ ext, wait_loop_event e) :
    ¬ signals_readable ext ∧ ¬ signals_writable ext := by
  constructor
  · rintro (hm | hm) <;> simpa [wait_loop_event] using h _ hm
  · rintro (hm | hm) <;> simpa [wait_loop_event] using h _ hm

theorem signals_readable_append (a b : List Event) :
    signals_readable (a ++ b) ↔ signals_readable a ∨ signals_readable b := by
  simp only [signals_readable, List.mem_append]; tauto

theorem signals_writable_append (a b : List Event) :
    signals_writable (a ++ b) ↔ signals_writable a ∨ signals_writable b := by
  simp only [signals_writable, List.mem_append]; tauto

/-- Counterexample to C14: the buffer of capacity 2 holds "AB"; a `mydev_read`
of 2 bytes whose `copy_to_user` fails returns `-EFAULT` and leaves the ring
buffer well-formed but empty: both stored bytes are lost. -/
theorem read_fault_loses_bytes :
    (mydev_read ⟨some ⟨[65, 66], 0, 0, 2, Status.MYBUFF_FULL⟩, false⟩ 0 2
      ⟨false, [], true, false⟩).retval = some (-EFAULT) ∧
    contents_of (some ⟨[65, 66], 0, 0, 2, Status.MYBUFF_FULL⟩) = [65, 66] ∧
    contents_of (mydev_read ⟨some ⟨[65, 66], 0, 0, 2, Status.MYBUFF_FULL⟩, false⟩ 0 2
      ⟨false, [], true, false⟩).mybuff = [] ∧
    WFo (mydev_read ⟨some ⟨[65, 66], 0, 0, 2, Status.MYBUFF_FULL⟩, false⟩ 0 2
      ⟨false, [], true, false⟩).mybuff := by
  decide

end MyDev

namespace MyDev
open MyBuff

/-- C14 as amended: whenever `mydev_read` or `mydev_write` returns `-EFAULT`
the ring buffer afterwards is well-formed.  For `mydev_write` it is exactly
the buffer the call found under the lock and `mybuff_write` was not called.
For `mydev_read` the first `min(count, ready)` stored bytes of the buffer the
call found under the lock (at least one byte) have been removed from the ring
buffer and the remaining stored bytes are kept in the same order. -/
theorem fault_keeps_buffer_wellformed (mydev : mydev_info) (f_flags : Nat)
    (buf : List Byte) (count : Nat) (env : Env)
    (hwf : WFo mydev.mybuff) (henv : ∀ r ∈ env.rounds, WFo r.mybuff) :
    ((mydev_read mydev f_flags count env).retval = some (-EFAULT) →
      WFo (mydev_read mydev f_flags count env).mybuff ∧
      contents_of (mydev_read mydev f_flags count env).mybuff
        = (contents_of (env_buff mydev.mybuff env.rounds
            (waits (mydev_read mydev f_flags count env).trace))).drop
              (int_of_size_t count).toNat ∧
      (contents_of (mydev_read mydev f_flags count env).mybuff).length
        < (contents_of (env_buff mydev.mybuff env.rounds
            (waits (mydev_read mydev f_flags count env).trace))).length) ∧
    ((mydev_write mydev f_flags buf count env).retval = some (-EFAULT) →
      WFo (mydev_write mydev f_flags buf count env).mybuff ∧
      (mydev_write mydev f_flags buf count env).mybuff
        = env_buff mydev.mybuff env.rounds
            (waits (mydev_write mydev f_flags buf count env).trace) ∧
      Event.mybuff_write ∉ (mydev_write mydev f_flags buf count env).trace) := by
  have hne : -ERESTARTSYS ≠ -EFAULT ∧ -EAGAIN ≠ -EFAULT ∧ -ENOMEM ≠ -EFAULT := by
    simp only [ERESTARTSYS, EAGAIN, ENOMEM, EFAULT]; omega
  have hz : waits [Event.mutex_lock true] = 0 := by simp [waits]
  constructor
  · unfold mydev_read
    cases hl : env.lock_intr
    · simp only [Bool.false_eq_true, if_false]
      cases hW : mydev_read_wait (f_flags &&& O_NONBLOCK != 0) env.rounds mydev.mybuff
          [Event.mutex_lock true] with
      | exit rv b tr =>
        simp only
        intro h
        subst h
        obtain ⟨i1, _⟩ := read_wait_exit _ _ _ _ _ _ _ hW
        rcases i1 with h | h
        · exact absurd h.symm hne.2.1
        · exact absurd h.symm hne.1
      | proceed b tr =>
        obtain ⟨p1, _, p3⟩ := read_wait_proceed _ _ _ _ _ _ hW
        rw [hz, Nat.sub_zero] at p3
        have hwb : WFo b := by rw [p3]; exact env_buff_WFo _ _ _ hwf henv
        obtain ⟨r1, r2, r3, r4⟩ := read_under_lock b hwb p1 (int_of_size_t count)
        have hnn := read_ret_nonneg b (int_of_size_t count)
        cases hk : env.kmalloc_ok
        · simp [hne.2.2]
        · by_cases hc : copy_fails env.copy_ok (mybuff_read b (int_of_size_t count)).ret = true
          · simp only [Bool.not_true, Bool.false_eq_true, if_false, hc, if_true]
            intro _
            have hw : waits (tr ++ [Event.kmalloc true, Event.mybuff_read,
                Event.copy_to_user false, Event.kfree, Event.mutex_unlock]) = waits tr := by
              simp [waits_append, waits]
            rw [hw, ← p3]
            refine ⟨r1, r2, ?_⟩
            have hr0 : (mybuff_read b (int_of_size_t count)).ret ≠ 0 := by
              simp only [copy_fails, Bool.and_eq_true, bne_iff_ne] at hc
              exact hc.2
            rw [r2, List.length_drop]
            rw [r3] at hr0
            omega
          · simp only [Bool.not_true, Bool.false_eq_true, if_false, hc]
            intro h
            simp only [Option.some.injEq] at h
            simp only [EFAULT] at h
            omega
    · simp [hne.1]
  · unfold mydev_write
    cases hl : env.lock_intr
    · simp only [Bool.false_eq_true, if_false]
      cases hW : mydev_write_wait (f_flags &&& O_NONBLOCK != 0) env.rounds mydev.mybuff
          [Event.mutex_lock true] with
      | exit rv b tr =>
        simp only
        intro h
        subst h
        obtain ⟨i1, _⟩ := write_wait_exit _ _ _ _ _ _ _ hW
        rcases i1 with h | h
        · exact absurd h.symm hne.2.1
        · exact absurd h.symm hne.1
      | proceed b tr =>
        obtain ⟨p1, _, p3⟩ := write_wait_proceed _ _ _ _ _ _ hW
        rw [hz, Nat.sub_zero] at p3
        have hwb : WFo b := by rw [p3]; exact env_buff_WFo _ _ _ hwf henv
        obtain ⟨ext, e1, e2, _, _⟩ := write_wait_run (f_flags &&& O_NONBLOCK != 0)
          env.rounds mydev.mybuff [Event.mutex_lock true]
        rw [hW] at e1
        simp only [Wait.trace] at e1
        have hnw : Event.mybuff_write ∉ tr := by
          rw [e1]
          intro hm
          rcases List.mem_append.mp hm with h | h
          · simp at h
          · simpa [wait_loop_event] using e2 _ h
        have hnn := write_ret_nonneg b (buf.take count) (int_of_size_t count)
        cases hk : env.kmalloc_ok
        · simp [hne.2.2]
        · by_cases hc : copy_fails env.copy_ok (count : Int) = true
          · simp only [Bool.not_true, Bool.false_eq_true, if_false, hc, if_true]
            intro _
            have hw : waits (tr ++ [Event.kmalloc true, Event.copy_from_user false,
                Event.kfree, Event.mutex_unlock]) = waits tr := by
              simp [waits_append, waits]
            rw [hw, ← p3]
            refine ⟨hwb, rfl, ?_⟩
            simpa using hnw
          · simp only [Bool.not_true, Bool.false_eq_true, if_false, hc]
            intro h
            simp only [Option.some.injEq] at h
            simp only [EFAULT] at h
            omega
    · simp [hne.1]

/-- Witness of C14 as amended: the faulting read of the counterexample, and a
faulting write on the buffer of capacity 4 holding "AB", which it leaves as it
was. -/
theorem fault_keeps_buffer_wellformed_witness :
    contents_of (mydev_read ⟨some ⟨[65, 66], 0, 0, 2, Status.MYBUFF_FULL⟩, false⟩ 0 2
        ⟨false, [], true, false⟩).mybuff
      = (contents_of (some ⟨[65, 66], 0, 0, 2, Status.MYBUFF_FULL⟩)).drop 2 ∧
    (mydev_write ⟨some ⟨[65, 66, 0, 0], 2, 0, 4, Status.MYBUFF_DATA⟩, false⟩ 0 [67] 1
        ⟨false, [], true, false⟩).retval = some (-EFAULT) ∧
    (mydev_write ⟨some ⟨[65, 66, 0, 0], 2, 0, 4, Status.MYBUFF_DATA⟩, false⟩ 0 [67] 1
        ⟨false, [], true, false⟩).mybuff
      = some ⟨[65, 66, 0, 0], 2, 0, 4, Status.MYBUFF_DATA⟩ :=
  ⟨((fault_keeps_buffer_wellformed ⟨some ⟨[65, 66], 0, 0, 2, Status.MYBUFF_FULL⟩, false⟩
      0 [] 2 ⟨false, [], true, false⟩ (by decide) (by decide)).1 (by decide)).2.1,
   by decide,
   ((fault_keeps_buffer_wellformed
      ⟨some ⟨[65, 66, 0, 0], 2, 0, 4, Status.MYBUFF_DATA⟩, false⟩
      0 [67] 1 ⟨false, [], true, false⟩ (by decide) (by decide)).2 (by decide)).2.1⟩

end MyDev

namespace MyDev
open MyBuff

/-- Counterexample to C15: on the buffer of capacity 4 holding "AB", a
`mydev_read` of 0 bytes returns 0, removes nothing and still signals the
writable waiter set; a `mydev_write` of 0 bytes returns 0, adds nothing and
still signals the readable waiter set. -/
theorem zero_count_call_signals :
    (mydev_read ⟨some ⟨[65, 66, 0, 0], 2, 0, 4, Status.MYBUFF_DATA⟩, true⟩ 0 0
      ⟨false, [], true, true⟩).retval = some 0 ∧
    (mydev_read ⟨some ⟨[65, 66, 0, 0], 2, 0, 4, Status.MYBUFF_DATA⟩, true⟩ 0 0
      ⟨false, [], true, true⟩).mybuff = some ⟨[65, 66, 0, 0], 2, 0, 4, Status.MYBUFF_DATA⟩ ∧
    Event.wake_up Queue.out_queue ∈
      (mydev_read ⟨some ⟨[65, 66, 0, 0], 2, 0, 4, Status.MYBUFF_DATA⟩, true⟩ 0 0
        ⟨false, [], true, true⟩).trace ∧
    Event.kill_fasync Band.POLL_OUT ∈
      (mydev_read ⟨some ⟨[65, 66, 0, 0], 2, 0, 4, Status.MYBUFF_DATA⟩, true⟩ 0 0
        ⟨false, [], true, true⟩).trace ∧
    (mydev_write ⟨some ⟨[65, 66, 0, 0], 2, 0, 4, Status.MYBUFF_DATA⟩, true⟩ 0 [] 0
      ⟨false, [], true, true⟩).retval = some 0 ∧
    (mydev_write ⟨some ⟨[65, 66, 0, 0], 2, 0, 4, Status.MYBUFF_DATA⟩, true⟩ 0 [] 0
      ⟨false, [], true, true⟩).mybuff = some ⟨[65, 66, 0, 0], 2, 0, 4, Status.MYBUFF_DATA⟩ ∧
    Event.wake_up Queue.in_queue ∈
      (mydev_write ⟨some ⟨[65, 66, 0, 0], 2, 0, 4, Status.MYBUFF_DATA⟩, true⟩ 0 [] 0
        ⟨false, [], true, true⟩).trace := by
  decide

/-- Which wakeups a call performs: a `mydev_read` call never signals the
readable waiter set; it wakes `out_queue` exactly when it returns successfully
and notifies the subscribers with `POLL_OUT` exactly when it returns
successfully and `async_queue` is set.  Symmetrically for `mydev_write`. -/
theorem wake_events (mydev : mydev_info) (f_flags : Nat) (buf : List Byte)
    (count : Nat) (env : Env)
    (hwf : WFo mydev.mybuff) (henv : ∀ r ∈ env.rounds, WFo r.mybuff) :
    (¬ signals_readable (mydev_read mydev f_flags count env).trace ∧
     (signals_writable (mydev_read mydev f_flags count env).trace
       ↔ ∃ rv, (mydev_read mydev f_flags count env).retval = some rv ∧ 0 ≤ rv) ∧
     (Event.wake_up Queue.out_queue ∈ (mydev_read mydev f_flags count env).trace
       ↔ ∃ rv, (mydev_read mydev f_flags count env).retval = some rv ∧ 0 ≤ rv) ∧
     (∀ rv, (mydev_read mydev f_flags count env).retval = some rv → 0 ≤ rv →
       0 < int_of_size_t count → 1 ≤ rv) ∧
     (Event.kill_fasync Band.POLL_OUT ∈ (mydev_read mydev f_flags count env).trace
       ↔ (∃ rv, (mydev_read mydev f_flags count env).retval = some rv ∧ 0 ≤ rv) ∧
         mydev.async_queue = true)) ∧
    (¬ signals_writable (mydev_write mydev f_flags buf count env).trace ∧
     (signals_readable (mydev_write mydev f_flags buf count env).trace
       ↔ ∃ rv, (mydev_write mydev f_flags buf count env).retval = some rv ∧ 0 ≤ rv) ∧
     (Event.wake_up Queue.in_queue ∈ (mydev_write mydev f_flags buf count env).trace
       ↔ ∃ rv, (mydev_write mydev f_flags buf count env).retval = some rv ∧ 0 ≤ rv) ∧
     (∀ rv, (mydev_write mydev f_flags buf count env).retval = some rv → 0 ≤ rv →
       0 < int_of_size_t count → 1 ≤ rv) ∧
     (Event.kill_fasync Band.POLL_IN ∈ (mydev_write mydev f_flags buf count env).trace
       ↔ (∃ rv, (mydev_write mydev f_flags buf count env).retval = some rv ∧ 0 ≤ rv) ∧
         mydev.async_queue = true)) := by
  have hneg : ¬ (0 : Int) ≤ -ERESTARTSYS ∧ ¬ (0 : Int) ≤ -EAGAIN ∧
      ¬ (0 : Int) ≤ -ENOMEM ∧ ¬ (0 : Int) ≤ -EFAULT := by
    simp only [ERESTARTSYS, EAGAIN, ENOMEM, EFAULT]; omega
  have hz : waits [Event.mutex_lock true] = 0 := by simp [waits]
  constructor
  · unfold mydev_read
    cases hl : env.lock_intr
    · simp only [Bool.false_eq_true, if_false]
      obtain ⟨ext, e1, e2, _, _⟩ := read_wait_run (f_flags &&& O_NONBLOCK != 0)
        env.rounds mydev.mybuff [Event.mutex_lock true]
      obtain ⟨s1, s2⟩ := wait_loop_no_signal ext e2
      cases hW : mydev_read_wait (f_flags &&& O_NONBLOCK != 0) env.rounds mydev.mybuff
          [Event.mutex_lock true] with
      | exit rv b tr =>
        rw [hW] at e1
        simp only [Wait.trace] at e1
        subst e1
        have hrv : ¬ ∃ x, rv = some x ∧ 0 ≤ x := by
          rintro ⟨x, hx, hx0⟩
          subst hx
          obtain ⟨i1, _⟩ := read_wait_exit _ _ _ _ _ _ _ hW
          simp only [ERESTARTSYS, EAGAIN] at i1
          omega
        have t1 : ¬ signals_readable ([Event.mutex_lock true] ++ ext) := by
          rw [signals_readable_append]
          rintro (h | h)
          · simp [signals_readable] at h
          · exact s1 h
        have t2 : ¬ signals_writable ([Event.mutex_lock true] ++ ext) := by
          rw [signals_writable_append]
          rintro (h | h)
          · simp [signals_writable] at h
          · exact s2 h
        refine ⟨t1, ⟨fun h => absurd h t2, fun h => absurd h hrv⟩,
          ⟨fun h => absurd (Or.inl h) t2, fun h => absurd h hrv⟩, ?_,
          ⟨fun h => absurd (Or.inr h) t2, fun h => absurd h.1 hrv⟩⟩
        intro x hx hx0
        exact absurd ⟨x, hx, hx0⟩ hrv
      | proceed b tr =>
        rw [hW] at e1
        simp only [Wait.trace] at e1
        subst e1
        obtain ⟨p1, _, p3⟩ := read_wait_proceed _ _ _ _ _ _ hW
        rw [hz, Nat.sub_zero] at p3
        have hwb : WFo b := by rw [p3]; exact env_buff_WFo _ _ _ hwf henv
        obtain ⟨_, _, r3, r4⟩ := read_under_lock b hwb p1 (int_of_size_t count)
        have hnn := read_ret_nonneg b (int_of_size_t count)
        have m1 : Event.wake_up Queue.in_queue ∉ ext ∧
            Event.kill_fasync Band.POLL_IN ∉ ext ∧
            Event.wake_up Queue.out_queue ∉ ext ∧
            Event.kill_fasync Band.POLL_OUT ∉ ext := by
          simp only [signals_readable, signals_writable, not_or] at s1 s2
          exact ⟨s1.1, s1.2, s2.1, s2.2⟩
        cases hk : env.kmalloc_ok <;>
          by_cases hc : copy_fails env.copy_ok (mybuff_read b (int_of_size_t count)).ret = true <;>
          cases ha : mydev.async_queue <;>
          simp [hk, hc, signals_readable, signals_writable, m1, hneg, hnn] <;>
          omega
    · simp [signals_readable, signals_writable, hneg]
  · unfold mydev_write
    cases hl : env.lock_intr
    · simp only [Bool.false_eq_true, if_false]
      obtain ⟨ext, e1, e2, _, _⟩ := write_wait_run (f_flags &&& O_NONBLOCK != 0)
        env.rounds mydev.mybuff [Event.mutex_lock true]
      obtain ⟨s1, s2⟩ := wait_loop_no_signal ext e2
      cases hW : mydev_write_wait (f_flags &&& O_NONBLOCK != 0) env.rounds mydev.mybuff
          [Event.mutex_lock true] with
      | exit rv b tr =>
        rw [hW] at e1
        simp only [Wait.trace] at e1
        subst e1
        have hrv : ¬ ∃ x, rv = some x ∧ 0 ≤ x := by
          rintro ⟨x, hx, hx0⟩
          subst hx
          obtain ⟨i1, _⟩ := write_wait_exit _ _ _ _ _ _ _ hW
          simp only [ERESTARTSYS, EAGAIN] at i1
          omega
        have t1 : ¬ signals_readable ([Event.mutex_lock true] ++ ext) := by
          rw [signals_readable_append]
          rintro (h | h)
          · simp [signals_readable] at h
          · exact s1 h
        have t2 : ¬ signals_writable ([Event.mutex_lock true] ++ ext) := by
          rw [signals_writable_append]
          rintro (h | h)
          · simp [signals_writable] at h
          · exact s2 h
        refine ⟨t2, ⟨fun h => absurd h t1, fun h => absurd h hrv⟩,
          ⟨fun h => absurd (Or.inl h) t1, fun h => absurd h hrv⟩, ?_,
          ⟨fun h => absurd (Or.inr h) t1, fun h => absurd h.1 hrv⟩⟩
        intro x hx hx0
        exact absurd ⟨x, hx, hx0⟩ hrv
      | proceed b tr =>
        rw [hW] at e1
        simp only [Wait.trace] at e1
        subst e1
        obtain ⟨p1, _, p3⟩ := write_wait_proceed _ _ _ _ _ _ hW
        rw [hz, Nat.sub_zero] at p3
        have hwb : WFo b := by rw [p3]; exact env_buff_WFo _ _ _ hwf henv
        have hpos := write_under_lock b hwb p1 (buf.take count) (int_of_size_t count)
        have hnn := write_ret_nonneg b (buf.take count) (int_of_size_t count)
        have m1 : Event.wake_up Queue.in_queue ∉ ext ∧
            Event.kill_fasync Band.POLL_IN ∉ ext ∧
            Event.wake_up Queue.out_queue ∉ ext ∧
            Event.kill_fasync Band.POLL_OUT ∉ ext := by
          simp only [signals_readable, signals_writable, not_or] at s1 s2
          exact ⟨s1.1, s1.2, s2.1, s2.2⟩
        cases hk : env.kmalloc_ok <;>
          by_cases hc : copy_fails env.copy_ok (count : Int) = true <;>
          cases ha : mydev.async_queue <;>
          simp [hk, hc, signals_readable, signals_writable, m1, hneg, hnn] <;>
          omega
    · simp [signals_readable, signals_writable, hneg]

theorem int_of_size_t_le (count : Nat) : (int_of_size_t count).toNat ≤ count := by
  unfold int_of_size_t
  have := Nat.mod_le count (2 ^ 32)
  split_ifs <;> omega

theorem take_min_length (l : List Byte) (c : Nat) : l.take (min c l.length) = l.take c := by
  by_cases h : c ≤ l.length
  · rw [Nat.min_eq_left h]
  · rw [Nat.min_eq_right (by omega), List.take_length, List.take_of_length_le (by omega)]

theorem drop_min_length (l : List Byte) (c : Nat) : l.drop (min c l.length) = l.drop c := by
  by_cases h : c ≤ l.length
  · rw [Nat.min_eq_left h]
  · rw [Nat.min_eq_right (by omega), List.drop_length, List.drop_eq_nil_of_le (by omega)]

theorem read_under_lock_out (b : Option MyBuff.mybuff) (hw : WFo b) (c : Int) :
    (mybuff_read b c).out = (contents_of b).take c.toNat := by
  cases b with
  | none => simp [mybuff_read, contents_of]
  | some x =>
    have hx : WF x := hw
    obtain ⟨_, _, _, _, _, _, e2, _⟩ := read_spec x hx c
    exact e2

theorem write_under_lock_contents (b : Option MyBuff.mybuff) (hw : WFo b)
    (hf : mybuff_free b ≠ 0) (data : List Byte) (c : Int) :
    WFo (mybuff_write b data c).mybuff ∧
    contents_of (mybuff_write b data c).mybuff
      = contents_of b ++ (List.range (mybuff_write b data c).ret.toNat).map
          (fun j => data.getD (0 + j) 0) ∧
    (mybuff_write b data c).ret.toNat ≤ c.toNat := by
  cases b with
  | none => simp [mybuff_free] at hf
  | some x =>
    have hx : WF x := hw
    obtain ⟨x1, e1, w1, _, _, e2, _, _, e3⟩ := write_spec x hx data c
    refine ⟨?_, ?_, ?_⟩
    · rw [e1]; exact w1
    · rw [e1]; exact e3
    · rw [e2]; omega

/-- A successful `mydev_read` went through the wait loop to the transfer: its
result is the one built after `copy_to_user`. -/
theorem read_success_shape (mydev : mydev_info) (f_flags : Nat) (count : Nat) (env : Env)
    (rv : Int) (h : (mydev_read mydev f_flags count env).retval = some rv) (h0 : 0 ≤ rv) :
    ∃ b tr, mydev_read_wait (f_flags &&& O_NONBLOCK != 0) env.rounds mydev.mybuff
        [Event.mutex_lock true] = Wait.proceed b tr ∧
      mydev_read mydev f_flags count env
        = { retval := some (mybuff_read b (int_of_size_t count)).ret
            mybuff := (mybuff_read b (int_of_size_t count)).mybuff
            user := (mybuff_read b (int_of_size_t count)).out
            trace := tr ++ [Event.kmalloc true, Event.mybuff_read,
                            Event.copy_to_user true, Event.kfree, Event.mutex_unlock,
                            Event.wake_up Queue.out_queue]
                        ++ (if mydev.async_queue then [Event.kill_fasync Band.POLL_OUT]
                            else []) } := by
  have hneg : ¬ (0 : Int) ≤ -ERESTARTSYS ∧ ¬ (0 : Int) ≤ -EAGAIN ∧
      ¬ (0 : Int) ≤ -ENOMEM ∧ ¬ (0 : Int) ≤ -EFAULT := by
    simp only [ERESTARTSYS, EAGAIN, ENOMEM, EFAULT]; omega
  unfold mydev_read at h ⊢
  cases hl : env.lock_intr
  · simp only [hl, Bool.false_eq_true, if_false] at h ⊢
    cases hW : mydev_read_wait (f_flags &&& O_NONBLOCK != 0) env.rounds mydev.mybuff
        [Event.mutex_lock true] with
    | exit r b tr =>
      rw [hW] at h
      simp only at h
      subst h
      obtain ⟨i1, _⟩ := read_wait_exit _ _ _ _ _ _ _ hW
      simp only [ERESTARTSYS, EAGAIN] at i1
      omega
    | proceed b tr =>
      rw [hW] at h
      refine ⟨b, tr, rfl, ?_⟩
      cases hk : env.kmalloc_ok
      · simp only [hk, Bool.not_false, if_true, Option.some.injEq] at h
        subst h
        exact absurd h0 hneg.2.2.1
      · by_cases hc : copy_fails env.copy_ok (mybuff_read b (int_of_size_t count)).ret = true
        · simp only [hk, Bool.not_true, Bool.false_eq_true, if_false, hc, if_true,
            Option.some.injEq] at h
          subst h
          exact absurd h0 hneg.2.2.2
        · simp only [Bool.not_true, Bool.false_eq_true, if_false, hc]
  · simp only [hl, if_true, Option.some.injEq] at h
    subst h
    exact absurd h0 hneg.1

/-- A successful `mydev_write` went through the wait loop to the transfer: its
result is the one built after `mybuff_write`. -/
theorem write_success_shape (mydev : mydev_info) (f_flags : Nat) (buf : List Byte)
    (count : Nat) (env : Env)
    (rv : Int) (h : (mydev_write mydev f_flags buf count env).retval = some rv)
    (h0 : 0 ≤ rv) :
    ∃ b tr, mydev_write_wait (f_flags &&& O_NONBLOCK != 0) env.rounds mydev.mybuff
        [Event.mutex_lock true] = Wait.proceed b tr ∧
      mydev_write mydev f_flags buf count env
        = { retval := some (mybuff_write b (buf.take count) (int_of_size_t count)).ret
            mybuff := (mybuff_write b (buf.take count) (int_of_size_t count)).mybuff
            user := []
            trace := tr ++ [Event.kmalloc true, Event.copy_from_user true,
                            Event.mybuff_write, Event.kfree, Event.mutex_unlock,
                            Event.wake_up Queue.in_queue]
                        ++ (if mydev.async_queue then [Event.kill_fasync Band.POLL_IN]
                            else []) } := by
  have hneg : ¬ (0 : Int) ≤ -ERESTARTSYS ∧ ¬ (0 : Int) ≤ -EAGAIN ∧
      ¬ (0 : Int) ≤ -ENOMEM ∧ ¬ (0 : Int) ≤ -EFAULT := by
    simp only [ERESTARTSYS, EAGAIN, ENOMEM, EFAULT]; omega
  unfold mydev_write at h ⊢
  cases hl : env.lock_intr
  · simp only [hl, Bool.false_eq_true, if_false] at h ⊢
    cases hW : mydev_write_wait (f_flags &&& O_NONBLOCK != 0) env.rounds mydev.mybuff
        [Event.mutex_lock true] with
    | exit r b tr =>
      rw [hW] at h
      simp only at h
      subst h
      obtain ⟨i1, _⟩ := write_wait_exit _ _ _ _ _ _ _ hW
      simp only [ERESTARTSYS, EAGAIN] at i1
      omega
    | proceed b tr =>
      rw [hW] at h
      refine ⟨b, tr, rfl, ?_⟩
      cases hk : env.kmalloc_ok
      · simp only [hk, Bool.not_false, if_true, Option.some.injEq] at h
        subst h
        exact absurd h0 hneg.2.2.1
      · by_cases hc : copy_fails env.copy_ok (count : Int) = true
        · simp only [hk, Bool.not_true, Bool.false_eq_true, if_false, hc, if_true,
            Option.some.injEq] at h
          subst h
          exact absurd h0 hneg.2.2.2
        · simp only [Bool.not_true, Bool.false_eq_true, if_false, hc]
  · simp only [hl, if_true, Option.some.injEq] at h
    subst h
    exact absurd h0 hneg.1

/-- What a successful `mydev_read` does to the ring buffer it found under the
lock: it removes the first `rv` stored bytes, which are the bytes delivered. -/
theorem read_success_effect (mydev : mydev_info) (f_flags : Nat) (count : Nat) (env : Env)
    (hwf : WFo mydev.mybuff) (henv : ∀ r ∈ env.rounds, WFo r.mybuff)
    (rv : Int) (h : (mydev_read mydev f_flags count env).retval = some rv) (h0 : 0 ≤ rv) :
    (mydev_read mydev f_flags count env).user
      = (contents_of (env_buff mydev.mybuff env.rounds
          (waits (mydev_read mydev f_flags count env).trace))).take rv.toNat ∧
    contents_of (mydev_read mydev f_flags count env).mybuff
      = (contents_of (env_buff mydev.mybuff env.rounds
          (waits (mydev_read mydev f_flags count env).trace))).drop rv.toNat ∧
    (contents_of (mydev_read mydev f_flags count env).mybuff).length + rv.toNat
      = (contents_of (env_buff mydev.mybuff env.rounds
          (waits (mydev_read mydev f_flags count env).trace))).length ∧
    WFo (mydev_read mydev f_flags count env).mybuff ∧
    Event.mybuff_read ∈ (mydev_read mydev f_flags count env).trace := by
  obtain ⟨b, tr, hW, hres⟩ := read_success_shape mydev f_flags count env rv h h0
  obtain ⟨p1, _, p3⟩ := read_wait_proceed _ _ _ _ _ _ hW
  have hz : waits [Event.mutex_lock true] = 0 := by simp [waits]
  rw [hz, Nat.sub_zero] at p3
  have hwb : WFo b := by rw [p3]; exact env_buff_WFo _ _ _ hwf henv
  obtain ⟨r1, r2, r3, _⟩ := read_under_lock b hwb p1 (int_of_size_t count)
  have ro := read_under_lock_out b hwb (int_of_size_t count)
  have hwt : waits (mydev_read mydev f_flags count env).trace = waits tr := by
    rw [hres]; cases mydev.async_queue <;> simp [waits_append, waits]
  have hrv : rv.toNat = min (int_of_size_t count).toNat (contents_of b).length := by
    rw [hres] at h
    simp only [Option.some.injEq] at h
    rw [← h, r3, Int.toNat_ofNat]
  rw [hwt, ← p3, hrv, take_min_length, drop_min_length]
  rw [hres]
  refine ⟨ro, r2, ?_, r1, by simp⟩
  simp only [r2, List.length_drop]
  omega

/-- What a successful `mydev_write` does to the ring buffer it found under the
lock: it appends `rv` bytes, the first `rv` bytes of the caller's data. -/
theorem write_success_effect (mydev : mydev_info) (f_flags : Nat) (buf : List Byte)
    (count : Nat) (env : Env)
    (hwf : WFo mydev.mybuff) (henv : ∀ r ∈ env.rounds, WFo r.mybuff)
    (rv : Int) (h : (mydev_write mydev f_flags buf count env).retval = some rv)
    (h0 : 0 ≤ rv) :
    (∃ added, added.length = rv.toNat ∧
      contents_of (mydev_write mydev f_flags buf count env).mybuff
        = contents_of (env_buff mydev.mybuff env.rounds
            (waits (mydev_write mydev f_flags buf count env).trace)) ++ added ∧
      (count ≤ buf.length → added = buf.take rv.toNat)) ∧
    WFo (mydev_write mydev f_flags buf count env).mybuff ∧
    Event.mybuff_write ∈ (mydev_write mydev f_flags buf count env).trace := by
  obtain ⟨b, tr, hW, hres⟩ := write_success_shape mydev f_flags buf count env rv h h0
  obtain ⟨p1, _, p3⟩ := write_wait_proceed _ _ _ _ _ _ hW
  have hz : waits [Event.mutex_lock true] = 0 := by simp [waits]
  rw [hz, Nat.sub_zero] at p3
  have hwb : WFo b := by rw [p3]; exact env_buff_WFo _ _ _ hwf henv
  obtain ⟨w1, w2, w3⟩ := write_under_lock_contents b hwb p1 (buf.take count)
    (int_of_size_t count)
  have hwt : waits (mydev_write mydev f_flags buf count env).trace = waits tr := by
    rw [hres]; cases mydev.async_queue <;> simp [waits_append, waits]
  have hrv : (mybuff_write b (buf.take count) (int_of_size_t count)).ret = rv := by
    rw [hres] at h
    simpa using h
  rw [hrv] at w2 w3
  rw [hwt, ← p3]
  rw [hres]
  refine ⟨⟨_, ?_, w2, ?_⟩, w1, by simp⟩
  · simp
  · intro hlen
    have hle := int_of_size_t_le count
    have hl : (buf.take count).length = count := by
      rw [List.length_take]; omega
    rw [range_getD_take (buf.take count) rv.toNat (by omega), List.take_take]
    congr 1
    omega

/-- C15 as amended: a `mydev_read` call never signals the readable waiter set;
it wakes `out_queue` exactly when it returns successfully (a non-negative
count) and notifies the subscribers with `POLL_OUT` exactly when it returns
successfully and there are subscribers.  A successful call returning `rv` has
removed exactly the first `rv` stored bytes from the ring buffer it found under
the lock and delivered them, and `rv >= 1` whenever the requested count is
positive as an `int`.  Symmetrically a `mydev_write` call never signals the
writable waiter set, wakes `in_queue` exactly when it returns successfully and
notifies the subscribers with `POLL_IN` exactly when it returns successfully
and there are subscribers; a successful call returning `rv` has appended
exactly `rv` bytes (the first `rv` bytes of the caller's data), and `rv >= 1`
whenever the requested count is positive.  A call that returns an error
signals nobody. -/
theorem wake_targeting (mydev : mydev_info) (f_flags : Nat) (buf : List Byte)
    (count : Nat) (env : Env)
    (hwf : WFo mydev.mybuff) (henv : ∀ r ∈ env.rounds, WFo r.mybuff) :
    (¬ signals_readable (mydev_read mydev f_flags count env).trace ∧
     (Event.wake_up Queue.out_queue ∈ (mydev_read mydev f_flags count env).trace
       ↔ ∃ rv, (mydev_read mydev f_flags count env).retval = some rv ∧ 0 ≤ rv) ∧
     (Event.kill_fasync Band.POLL_OUT ∈ (mydev_read mydev f_flags count env).trace
       ↔ (∃ rv, (mydev_read mydev f_flags count env).retval = some rv ∧ 0 ≤ rv) ∧
         mydev.async_queue = true) ∧
     (∀ rv, (mydev_read mydev f_flags count env).retval = some rv → rv < 0 →
       ¬ signals_writable (mydev_read mydev f_flags count env).trace) ∧
     (∀ rv, (mydev_read mydev f_flags count env).retval = some rv → 0 ≤ rv →
       (0 < int_of_size_t count → 1 ≤ rv) ∧
       (mydev_read mydev f_flags count env).user
         = (contents_of (env_buff mydev.mybuff env.rounds
             (waits (mydev_read mydev f_flags count env).trace))).take rv.toNat ∧
       contents_of (mydev_read mydev f_flags count env).mybuff
         = (contents_of (env_buff mydev.mybuff env.rounds
             (waits (mydev_read mydev f_flags count env).trace))).drop rv.toNat ∧
       (contents_of (mydev_read mydev f_flags count env).mybuff).length + rv.toNat
         = (contents_of (env_buff mydev.mybuff env.rounds
             (waits (mydev_read mydev f_flags count env).trace))).length)) ∧
    (¬ signals_writable (mydev_write mydev f_flags buf count env).trace ∧
     (Event.wake_up Queue.in_queue ∈ (mydev_write mydev f_flags buf count env).trace
       ↔ ∃ rv, (mydev_write mydev f_flags buf count env).retval = some rv ∧ 0 ≤ rv) ∧
     (Event.kill_fasync Band.POLL_IN ∈ (mydev_write mydev f_flags buf count env).trace
       ↔ (∃ rv, (mydev_write mydev f_flags buf count env).retval = some rv ∧ 0 ≤ rv) ∧
         mydev.async_queue = true) ∧
     (∀ rv, (mydev_write mydev f_flags buf count env).retval = some rv → rv < 0 →
       ¬ signals_readable (mydev_write mydev f_flags buf count env).trace) ∧
     (∀ rv, (mydev_write mydev f_flags buf count env).retval = some rv → 0 ≤ rv →
       (0 < int_of_size_t count → 1 ≤ rv) ∧
       ∃ added, added.length = rv.toNat ∧
         contents_of (mydev_write mydev f_flags buf count env).mybuff
           = contents_of (env_buff mydev.mybuff env.rounds
               (waits (mydev_write mydev f_flags buf count env).trace)) ++ added ∧
         (count ≤ buf.length → added = buf.take rv.toNat))) := by
  obtain ⟨⟨a1, a2, a3, a4, a5⟩, ⟨b1, b2, b3, b4, b5⟩⟩ :=
    wake_events mydev f_flags buf count env hwf henv
  refine ⟨⟨a1, a3, a5, ?_, ?_⟩, ⟨b1, b3, b5, ?_, ?_⟩⟩
  · intro rv hrv hneg hs
    obtain ⟨x, hx, hx0⟩ := a2.mp hs
    rw [hrv] at hx
    simp only [Option.some.injEq] at hx
    omega
  · intro rv hrv h0
    obtain ⟨e1, e2, e3, _, _⟩ :=
      read_success_effect mydev f_flags count env hwf henv rv hrv h0
    exact ⟨a4 rv hrv h0, e1, e2, e3⟩
  · intro rv hrv hneg hs
    obtain ⟨x, hx, hx0⟩ := b2.mp hs
    rw [hrv] at hx
    simp only [Option.some.injEq] at hx
    omega
  · intro rv hrv h0
    obtain ⟨e1, _, _⟩ :=
      write_success_effect mydev f_flags buf count env hwf henv rv hrv h0
    exact ⟨b4 rv hrv h0, e1⟩

/-- Witness of C15 as amended: on the buffer of capacity 4 holding "AB", with
a subscriber, a `mydev_read` of 1 byte returns 1, wakes `out_queue`, notifies
with `POLL_OUT`, signals no reader and leaves "B" stored. -/
theorem wake_targeting_witness :
    (mydev_read ⟨some ⟨[65, 66, 0, 0], 2, 0, 4, Status.MYBUFF_DATA⟩, true⟩ 0 1
      ⟨false, [], true, true⟩).retval = some 1 ∧
    Event.wake_up Queue.out_queue ∈
      (mydev_read ⟨some ⟨[65, 66, 0, 0], 2, 0, 4, Status.MYBUFF_DATA⟩, true⟩
        0 1 ⟨false, [], true, true⟩).trace ∧
    Event.kill_fasync Band.POLL_OUT ∈
      (mydev_read ⟨some ⟨[65, 66, 0, 0], 2, 0, 4, Status.MYBUFF_DATA⟩, true⟩
        0 1 ⟨false, [], true, true⟩).trace ∧
    ¬ signals_readable (mydev_read ⟨some ⟨[65, 66, 0, 0], 2, 0, 4, Status.MYBUFF_DATA⟩, true⟩
      0 1 ⟨false, [], true, true⟩).trace ∧
    contents_of (mydev_read ⟨some ⟨[65, 66, 0, 0], 2, 0, 4, Status.MYBUFF_DATA⟩, true⟩
      0 1 ⟨false, [], true, true⟩).mybuff = [66] :=
  ⟨by decide,
   (wake_targeting ⟨some ⟨[65, 66, 0, 0], 2, 0, 4, Status.MYBUFF_DATA⟩, true⟩ 0 [] 1
      ⟨false, [], true, true⟩ (by decide) (by decide)).1.2.1.mpr ⟨1, by decide, by decide⟩,
   (wake_targeting ⟨some ⟨[65, 66, 0, 0], 2, 0, 4, Status.MYBUFF_DATA⟩, true⟩ 0 [] 1
      ⟨false, [], true, true⟩ (by decide) (by decide)).1.2.2.1.mpr
        ⟨⟨1, by decide, by decide⟩, rfl⟩,
   (wake_targeting ⟨some ⟨[65, 66, 0, 0], 2, 0, 4, Status.MYBUFF_DATA⟩, true⟩ 0 [] 1
      ⟨false, [], true, true⟩ (by decide) (by decide)).1.1,
   by decide⟩

end MyDev
